import Mathlib

/-! bwmon: the statistics store, the frame classifier and the snapshot barrier

A shallow embedding of `bwmon.cc`.

* `InterfaceStats` and its methods are pure functions on a record of the
  class's data members.  `clearAndPrintStats` blocks in the middle (line 65), so
  it is embedded as the part before the wait (`clearAndPrintStats_begin`, lines
  55-61) and the part after it (`clearAndPrintStats_end`, lines 68-90).
* `perPacketHandle` is embedded as its boundary-check argument (line 145), the
  classification switch (lines 150-172) and the final `incrementStat` (line 174).
* The threads (one `monitorInterface` per interface and `main`) are embedded as
  an executable step function `step` on a system state `Sys`, driven by a list
  of scheduler/environment choices (`Action`).  The waits on the two condition
  variables may return spuriously, as `std::condition_variable_any::wait` may;
  these returns are actions of their own, so that a statement can be made for
  all runs or for the runs without them (`noSpuriousWake`).

Machine integers: the byte counters are `uint64_t` (arithmetic modulo `2^64`),
packet sizes are `uint32_t`.  Time points are `int64` nanosecond counts; the
difference of line 56 is reduced to the `int64` range (`wrapInt64`).
-/

namespace Bwmon

/-! ## Data model -/

/-- A `std::chrono::high_resolution_clock::time_point`, as a count of nanoseconds. -/
abbrev TimePoint := Int

/-- The C `struct timeval` carried by a pcap packet header. -/
structure Timeval where
  tv_sec : Int
  tv_usec : Int
  deriving DecidableEq, Repr

/-- Conversion done by `checkCanRecord(const struct timeval, int)` (lines 104-108):
`seconds(tv_sec) + microseconds(tv_usec)` as a time point. -/
def tvConvert (tv : Timeval) : TimePoint :=
  tv.tv_sec * 1000000000 + tv.tv_usec * 1000

/-- The data members of `class InterfaceStats` (lines 22-30).  The mutex and the
two condition variables carry no data; they are part of the thread model. -/
structure InterfaceStats where
  num_interfaces_ : Int
  bad_byte_counts_ : List Nat
  good_byte_counts_ : List Nat
  limiting_ : Bool
  limit_ : TimePoint
  to_go_ : Int
  end_ : Bool
  deriving DecidableEq, Repr

/-- Arithmetic modulus of a `uint64_t` counter. -/
def U64 : Nat := 18446744073709551616

/-- Arithmetic modulus of a `uint32_t` packet size. -/
def U32 : Nat := 4294967296

/-- Value of an integer as a two's complement `int64`: itself between `-2^63`
and `2^63 - 1`, reduced modulo `2^64` into that range otherwise. -/
def wrapInt64 (x : Int) : Int :=
  (x + 9223372036854775808) % 18446744073709551616 - 9223372036854775808

namespace InterfaceStats

/-- Constructor `InterfaceStats(int n)` (lines 37-41). -/
def new (n : Nat) : InterfaceStats :=
  { num_interfaces_ := n
    bad_byte_counts_ := List.replicate n 0
    good_byte_counts_ := List.replicate n 0
    limiting_ := false
    limit_ := 0
    to_go_ := 0
    end_ := false }

/-- One `counts[interface] += packetSize` on a `std::vector<uint64_t>`; an index
outside the vector is undefined behaviour (`none`). -/
def bump (counts : List Nat) (interface : Int) (packetSize : Nat) : Option (List Nat) :=
  if 0 ≤ interface then
    match counts[interface.toNat]? with
    | some v => some (counts.set interface.toNat ((v + packetSize % U32) % U64))
    | none => none
  else none

/-- Method `incrementStat` (lines 43-50). -/
def incrementStat (s : InterfaceStats) (interface : Int) (good : Bool) (packetSize : Nat) :
    Option InterfaceStats :=
  if good then
    (bump s.good_byte_counts_ interface packetSize).map
      (fun g => { s with good_byte_counts_ := g })
  else
    (bump s.bad_byte_counts_ interface packetSize).map
      (fun b => { s with bad_byte_counts_ := b })

/-- Method `checkCanRecord` up to its wait (lines 118-121): the store after the
test and, when the limit is hit, the decrement of `to_go_`; the flag says
whether the caller now has to wait on `stopped_limiting_` (line 126). -/
def checkCanRecord (s : InterfaceStats) (tv_convert : TimePoint) (_id : Int) :
    InterfaceStats × Bool :=
  if s.limiting_ && decide (s.limit_ ≤ tv_convert) then
    ({ s with to_go_ := s.to_go_ - 1 }, true)
  else (s, false)

/-- Method `finished` (lines 93-96). -/
def finished (s : InterfaceStats) : Bool := s.end_

/-- Method `signalEnd` (lines 98-101). -/
def signalEnd (s : InterfaceStats) : InterfaceStats := { s with end_ := true }

/-- Lines 55-61 of `clearAndPrintStats`: publish the limit and arm the arrival
counter.  `endTime` is the value of `now()` read at line 55. -/
def clearAndPrintStats_begin (s : InterfaceStats) (endTime : TimePoint) : InterfaceStats :=
  { s with limiting_ := true, limit_ := endTime, to_go_ := s.num_interfaces_ }

/-- Loop test of line 65: the controller keeps waiting while this holds. -/
def mustWait (s : InterfaceStats) : Bool := decide (0 < s.to_go_)

/-- The print loop of lines 70-75, `k` iterations starting at index `i`, appending
to the text already sent to `std::cout`. -/
def printLoop (good bad : List Nat) : Nat → Nat → String → String
  | 0, _, out => out
  | k + 1, i, out =>
    printLoop good bad k (i + 1)
      (((out ++ ", ") ++ toString (good.getD i 0) ++ " ") ++ toString (bad.getD i 0))

/-- The reset loops of lines 80-83. -/
def zeroAll (counts : List Nat) : List Nat := counts.map (fun _ => 0)

/-- Lines 68-90 of `clearAndPrintStats`, run once the wait loop has been left:
the text written to `std::cout`, the store after the reset, and the returned
time point.  `startTime` is the argument, `endTime` the instant read at line 55;
the duration of line 56 is a difference of two `int64` nanosecond counts. -/
def clearAndPrintStats_end (s : InterfaceStats) (startTime endTime : TimePoint) :
    InterfaceStats × String × TimePoint :=
  let duration : Int := wrapInt64 (endTime - startTime)
  let out := toString duration ++ "ns"
  let out := printLoop s.good_byte_counts_ s.bad_byte_counts_ s.bad_byte_counts_.length 0 out
  let out := out ++ "\n"
  ({ s with
      good_byte_counts_ := zeroAll s.good_byte_counts_
      bad_byte_counts_ := zeroAll s.bad_byte_counts_
      limiting_ := false },
   out, endTime)

end InterfaceStats

/-! ## Frames and the classifier -/

/-- Link-layer type `DLT_NULL`, a constant of the libpcap header `pcap/dlt.h`. -/
def DLT_NULL : Int := 0

/-- Link-layer type `DLT_EN10MB`, a constant of the libpcap header `pcap/dlt.h`. -/
def DLT_EN10MB : Int := 1

/-- Link-layer type `DLT_RAW`, a constant of the libpcap header `pcap/dlt.h`
(its value on Linux). -/
def DLT_RAW : Int := 12

/-- What the callback receives for one packet: the header fields `ts` and `len`
of `struct pcap_pkthdr` and the captured bytes; the header field `caplen` is
the number of bytes that may be read. -/
structure Frame where
  ts : Timeval
  len : Nat
  data : List Nat
  deriving DecidableEq, Repr

/-- Header field `caplen`. -/
def Frame.caplen (f : Frame) : Nat := f.data.length

/-- The fields of `struct PcapLoopParams` that the callback uses. -/
structure PcapLoopParams where
  index : Int
  linkType : Int
  deriving DecidableEq, Repr

/-- A `uint32_t` assembled from four bytes in memory order, in the byte order of
the host. -/
def nativeU32 (littleEndian : Bool) (b0 b1 b2 b3 : Nat) : Nat :=
  if littleEndian then
    b0 % 256 + (b1 % 256) * 256 + (b2 % 256) * 65536 + (b3 % 256) * 16777216
  else
    b3 % 256 + (b2 % 256) * 256 + (b1 % 256) * 65536 + (b0 % 256) * 16777216

/-- Line 159, `*reinterpret_cast<const uint32_t *>(data + 26)`; reading outside
the captured bytes is undefined behaviour (`none`). -/
def loadIp (littleEndian : Bool) (data : List Nat) : Option Nat :=
  match data[26]?, data[27]?, data[28]?, data[29]? with
  | some b0, some b1, some b2, some b3 => some (nativeU32 littleEndian b0 b1 b2 b3)
  | _, _, _, _ => none

/-- Line 162: `!(((ip>>24)&0xff) % 2)`. -/
def goodIp (ip : Nat) : Bool := ((ip / 16777216) % 256) % 2 == 0

/-- Result of the switch of lines 150-172: the flag `good` and the text written
to `std::cout` and `std::cerr`. -/
structure Verdict where
  good : Bool
  cout : String
  cerr : String
  deriving DecidableEq, Repr

/-- Lines 150-172 of `perPacketHandle`. -/
def classify (littleEndian : Bool) (params : PcapLoopParams) (data : List Nat) :
    Option Verdict :=
  if params.linkType = DLT_NULL then
    some { good := false, cout := "null linktype (?)\n", cerr := "" }
  else if params.linkType = DLT_EN10MB then
    (loadIp littleEndian data).map (fun ip => { good := goodIp ip, cout := "", cerr := "" })
  else if params.linkType = DLT_RAW then
    some { good := false, cout := "ip linktype\n", cerr := "" }
  else
    some { good := false, cout := ""
           cerr := "Unknown linktype for iface " ++ toString params.index ++ ": saw "
                    ++ toString params.linkType ++ "\n" }

/-- Line 145 of `perPacketHandle`: the time point handed to `checkCanRecord`. -/
def boundaryTime (f : Frame) : TimePoint := tvConvert f.ts

/-- Lines 147-174 of `perPacketHandle`, run on the store once `checkCanRecord`
has returned: classify, then `incrementStat(index, good, h->len)`. -/
def perPacketHandle (littleEndian : Bool) (params : PcapLoopParams) (f : Frame)
    (stats : InterfaceStats) : Option InterfaceStats :=
  match classify littleEndian params f.data with
  | some v => stats.incrementStat params.index v.good f.len
  | none => none

/-! ## Histories of the store between two snapshots -/

/-- One call on the store made between two reads of the counters. -/
inductive StoreOp where
  /-- Call `incrementStat(interface, good, packetSize)`. -/
  | record (interface : Int) (good : Bool) (packetSize : Nat)
  /-- Call `checkCanRecord(tv, id)`, up to its wait. -/
  | check (tv : TimePoint) (id : Int)
  /-- Lines 55-61 of `clearAndPrintStats`. -/
  | begin (endTime : TimePoint)
  /-- Call `signalEnd()`. -/
  | signalEnd
  deriving DecidableEq, Repr

/-- Whether the call is an `incrementStat`. -/
def StoreOp.isRecord : StoreOp → Bool
  | .record _ _ _ => true
  | _ => false

/-- Effect of one call on the store. -/
def applyOp (s : InterfaceStats) : StoreOp → Option InterfaceStats
  | .record i g n => s.incrementStat i g n
  | .check tv id => some (s.checkCanRecord tv id).1
  | .begin e => some (s.clearAndPrintStats_begin e)
  | .signalEnd => some s.signalEnd

/-- Effect of a sequence of calls, in order. -/
def applyOps (s : InterfaceStats) : List StoreOp → Option InterfaceStats
  | [] => some s
  | op :: ops => (applyOp s op).bind (fun s1 => applyOps s1 ops)

/-- Sum of the `packetSize` arguments of the `incrementStat` calls of a history
whose interface is `i` and whose classification is `good`. -/
def recorded (i : Nat) (good : Bool) : List StoreOp → Nat
  | [] => 0
  | .record j g n :: ops =>
    (if j = (i : Int) ∧ g = good then n else 0) + recorded i good ops
  | _ :: ops => recorded i good ops

/-- An `incrementStat` call names a channel below `N` and passes a 32-bit size;
the other calls have no such condition. -/
def StoreOp.inRange (N : Nat) : StoreOp → Bool
  | .record i _ n => decide (0 ≤ i ∧ i < (N : Int) ∧ n < U32)
  | _ => true

/-- Every `incrementStat` of the history names a channel below `N` and passes a
32-bit size. -/
def validOps (N : Nat) (ops : List StoreOp) : Prop :=
  ∀ op ∈ ops, op.inRange N = true

instance (N : Nat) (ops : List StoreOp) : Decidable (validOps N ops) :=
  inferInstanceAs (Decidable (∀ op ∈ ops, op.inRange N = true))

/-- Concatenation of a list of texts. -/
def joinAll : List String → String
  | [] => ""
  | x :: xs => x ++ joinAll xs

/-- Text printed for one channel by the loop of lines 70-75. -/
def pairText (good bad : Nat) : String :=
  ", " ++ toString good ++ " " ++ toString bad

/-! ## The threads

One thread runs `monitorInterface` per interface (a channel); `main` is the
controller.  A thread is a control location plus its local variables.  The
`std::shared_mutex` is not a separate component of the state: a channel holds it
shared exactly at the locations `holdsShared`, the controller holds it
exclusively exactly at the locations `holdsUnique`, and a step that locks is
enabled only when the mutex allows it. -/

/-- The two call sites of `checkCanRecord`. -/
inductive Site where
  /-- Line 145, in `perPacketHandle` for the given frame. -/
  | frame (f : Frame)
  /-- Line 227, the idle check of the channel loop. -/
  | idle
  deriving DecidableEq, Repr

/-- Control locations of a channel thread. -/
inductive Loc where
  /-- Thread started, lines 182-215 not yet run. -/
  | setup
  /-- Line 220, about to call `poll`. -/
  | poll
  /-- Inside `pcap_dispatch` (line 223), between two callbacks. -/
  | dispatch
  /-- Line 226, after the poll and the drain. -/
  | afterDispatch
  /-- Line 114, about to take the shared lock in `checkCanRecord`. -/
  | check (tv : TimePoint) (site : Site)
  /-- Line 118, shared lock held, test not yet made. -/
  | checkLocked (tv : TimePoint) (site : Site)
  /-- Line 126 reached: `to_go_` decremented, `hit_limit_` notified, shared lock
  still held, wait not yet entered. -/
  | arrived (site : Site)
  /-- Blocked in `stopped_limiting_.wait`, lock released. -/
  | parked (site : Site)
  /-- The wait has been left; the shared lock is to be taken again. -/
  | woken (site : Site)
  /-- Line 150, `checkCanRecord` has returned to `perPacketHandle`. -/
  | classify (f : Frame)
  /-- Line 44, about to take the shared lock in `incrementStat`. -/
  | incr (good : Bool) (size : Nat)
  /-- Line 46, shared lock held. -/
  | incrLocked (good : Bool) (size : Nat)
  /-- Line 229, about to call `finished`. -/
  | fin
  /-- Loop left, `pcap_close` done, thread over. -/
  | closed
  /-- Undefined behaviour has been executed. -/
  | undefined
  deriving DecidableEq, Repr

/-- A channel thread: location and the local variables of `monitorInterface`,
with what the pending `pcap_dispatch` has still to deliver. -/
structure Chan where
  loc : Loc
  linkType : Int
  n_evts : Int
  count_processed : Int
  /-- Frames the running `pcap_dispatch` has still to hand to the callback. -/
  batch : List Frame
  /-- Value the running `pcap_dispatch` returns at its end. -/
  batchRet : Int
  deriving DecidableEq, Repr

/-- Control locations of the controller (`main`). -/
inductive CLoc where
  /-- Line 301, blocked in `getline`; `startTime` is the local of `main`. -/
  | input (startTime : TimePoint)
  /-- Line 65 of `clearAndPrintStats`, unique lock held, loop test to be made. -/
  | test (startTime endTime : TimePoint)
  /-- Blocked in `hit_limit_.wait`, lock released. -/
  | waiting (startTime endTime : TimePoint)
  /-- The wait has been left; the unique lock is to be taken again. -/
  | notified (startTime endTime : TimePoint)
  /-- Line 311, `signalEnd` done, joining the workers. -/
  | joining
  /-- Function `main` has returned. -/
  | exited
  deriving DecidableEq, Repr

/-- The whole program state. -/
structure Sys where
  stats : InterfaceStats
  ctrl : CLoc
  chans : List Chan
  /-- Lines written to `std::cout` by `clearAndPrintStats`, oldest first. -/
  out : List String
  /-- Diagnostics written by the callbacks, oldest first. -/
  diag : List String
  deriving DecidableEq, Repr

/-- The channel holds the mutex in shared mode. -/
def holdsShared : Loc → Bool
  | .checkLocked _ _ => true
  | .arrived _ => true
  | .incrLocked _ _ => true
  | _ => false

/-- The controller holds the mutex in exclusive mode. -/
def holdsUnique : CLoc → Bool
  | .test _ _ => true
  | _ => false

/-- No channel holds the mutex. -/
def noReader (chans : List Chan) : Bool :=
  chans.all (fun c => !holdsShared c.loc)

/-- Where `checkCanRecord` returns to. -/
def afterCheck : Site → Loc
  | .frame f => .classify f
  | .idle => .fin

/-- Effect of `hit_limit_.notify_all()` on the controller. -/
def notifyHitLimit : CLoc → CLoc
  | .waiting p e => .notified p e
  | c => c

/-- Effect of `stopped_limiting_.notify_all()` on one channel. -/
def notifyStopped (c : Chan) : Chan :=
  match c.loc with
  | .parked site => { c with loc := .woken site }
  | _ => c

/-- Choices of the environment and of the scheduler for one channel step. -/
inductive ChanAct where
  /-- Lines 182-204: the value left in `err` and the link type of the handle. -/
  | setup (err : Int) (linkType : Int)
  /-- Line 220: the value of `poll`, and what a `pcap_dispatch` started now
  hands to the callback and whether it ends with an error. -/
  | poll (n_evts : Int) (batch : List Frame) (err : Bool)
  /-- Line 227: the idle check, with the value of `now()`. -/
  | idle (now : TimePoint)
  /-- The next instruction of the thread. -/
  | run
  /-- The wait of line 126 returns although nobody notified. -/
  | spurious
  deriving DecidableEq, Repr

/-- Choices of the environment and of the scheduler for one step of the program. -/
inductive Action where
  /-- Channel `i` moves. -/
  | chan (i : Nat) (a : ChanAct)
  /-- Line 301 reads a line; `clearAndPrintStats` is entered, the unique lock
  taken and lines 55-61 run with the given value of `now()`. -/
  | line (now : TimePoint)
  /-- Line 301 meets the end of input; `signalEnd` runs. -/
  | eof
  /-- The next instruction of the controller. -/
  | ctrl
  /-- The wait of line 65 returns although nobody notified. -/
  | ctrlSpurious
  deriving DecidableEq, Repr

/-- What a channel step changes. -/
structure ChanOut where
  chan : Chan
  stats : InterfaceStats
  ctrl : CLoc
  diag : List String
  deriving DecidableEq, Repr

/-- One step of the thread running `monitorInterface` for interface `i`
(lines 177-239, with the callback `perPacketHandle` and the store methods it
calls inlined at their call sites). -/
def monitorInterface (littleEndian : Bool) (stats : InterfaceStats) (ctrl : CLoc)
    (i : Nat) (c : Chan) (a : ChanAct) : Option ChanOut :=
  match c.loc, a with
  | .setup, .setup err linkType =>
    some ⟨if err = 0 then { c with loc := .poll, linkType := linkType, count_processed := 0 }
          else { c with loc := .closed }, stats, ctrl, []⟩
  | .poll, .poll n_evts batch err =>
    if 0 < n_evts then
      some ⟨{ c with loc := .dispatch, n_evts := n_evts, batch := batch
                     batchRet := if err then -1 else (batch.length : Int) }, stats, ctrl, []⟩
    else
      some ⟨{ c with loc := .afterDispatch, n_evts := n_evts }, stats, ctrl, []⟩
  | .dispatch, .run =>
    match c.batch with
    | f :: rest =>
      some ⟨{ c with loc := .check (boundaryTime f) (.frame f), batch := rest }, stats, ctrl, []⟩
    | [] =>
      some ⟨{ c with loc := .afterDispatch, count_processed := c.batchRet }, stats, ctrl, []⟩
  | .afterDispatch, .idle now =>
    if c.n_evts = 0 ∨ c.count_processed = 0 then
      some ⟨{ c with loc := .check now .idle }, stats, ctrl, []⟩
    else none
  | .afterDispatch, .run =>
    if c.n_evts = 0 ∨ c.count_processed = 0 then none
    else some ⟨{ c with loc := .fin }, stats, ctrl, []⟩
  | .check tv site, .run =>
    if holdsUnique ctrl then none
    else some ⟨{ c with loc := .checkLocked tv site }, stats, ctrl, []⟩
  | .checkLocked tv site, .run =>
    match stats.checkCanRecord tv i with
    | (st, true) => some ⟨{ c with loc := .arrived site }, st, notifyHitLimit ctrl, []⟩
    | (st, false) => some ⟨{ c with loc := afterCheck site }, st, ctrl, []⟩
  | .arrived site, .run => some ⟨{ c with loc := .parked site }, stats, ctrl, []⟩
  | .parked site, .spurious => some ⟨{ c with loc := .woken site }, stats, ctrl, []⟩
  | .woken site, .run =>
    if holdsUnique ctrl then none
    else some ⟨{ c with loc := afterCheck site }, stats, ctrl, []⟩
  | .classify f, .run =>
    match classify littleEndian ⟨i, c.linkType⟩ f.data with
    | some v => some ⟨{ c with loc := .incr v.good f.len }, stats, ctrl, [v.cout ++ v.cerr]⟩
    | none => some ⟨{ c with loc := .undefined }, stats, ctrl, []⟩
  | .incr good size, .run =>
    if holdsUnique ctrl then none
    else some ⟨{ c with loc := .incrLocked good size }, stats, ctrl, []⟩
  | .incrLocked good size, .run =>
    match stats.incrementStat i good size with
    | some st => some ⟨{ c with loc := .dispatch }, st, ctrl, []⟩
    | none => some ⟨{ c with loc := .undefined }, stats, ctrl, []⟩
  | .fin, .run =>
    if holdsUnique ctrl then none
    else
      some ⟨{ c with loc := if stats.finished then .closed
                            else if 0 ≤ c.count_processed then .poll else .closed },
            stats, ctrl, []⟩
  | _, _ => none

/-- One step of the controller: the input loop of `main` (lines 299-311) with
`clearAndPrintStats` and `signalEnd` inlined at their call sites. -/
def main (s : Sys) : Action → Option Sys
  | .line now =>
    match s.ctrl with
    | .input startTime =>
      if noReader s.chans then
        some { s with stats := s.stats.clearAndPrintStats_begin now, ctrl := .test startTime now }
      else none
    | _ => none
  | .ctrl =>
    match s.ctrl with
    | .test startTime endTime =>
      if s.stats.mustWait then some { s with ctrl := .waiting startTime endTime }
      else
        let r := s.stats.clearAndPrintStats_end startTime endTime
        some { s with stats := r.1, out := s.out ++ [r.2.1]
                      chans := s.chans.map notifyStopped, ctrl := .input r.2.2 }
    | .notified startTime endTime =>
      if noReader s.chans then some { s with ctrl := .test startTime endTime } else none
    | .joining =>
      if s.chans.all (fun c => c.loc == .closed) then some { s with ctrl := .exited } else none
    | _ => none
  | .eof =>
    match s.ctrl with
    | .input _ =>
      if noReader s.chans then some { s with stats := s.stats.signalEnd, ctrl := .joining }
      else none
    | _ => none
  | .ctrlSpurious =>
    match s.ctrl with
    | .waiting startTime endTime => some { s with ctrl := .notified startTime endTime }
    | _ => none
  | .chan _ _ => none

/-- One step of the program; `none` when the chosen thread cannot move. -/
def step (littleEndian : Bool) (s : Sys) : Action → Option Sys
  | .chan i a =>
    match s.chans[i]? with
    | some c =>
      (monitorInterface littleEndian s.stats s.ctrl i c a).map fun o =>
        { s with chans := s.chans.set i o.chan, stats := o.stats, ctrl := o.ctrl
                 diag := s.diag ++ o.diag }
    | none => none
  | a => main s a

/-- A run: the steps of a schedule, in order. -/
def run (littleEndian : Bool) (s : Sys) : List Action → Option Sys
  | [] => some s
  | a :: acts => (step littleEndian s a).bind (fun s1 => run littleEndian s1 acts)

/-- State after `main` has built the store for `N` interfaces and started the
`N` threads (lines 266-293, every `pcap_create` having succeeded), with
`startTime` read at line 275. -/
def Sys.init (N : Nat) (startTime : TimePoint) : Sys :=
  { stats := InterfaceStats.new N
    ctrl := .input startTime
    chans := List.replicate N ⟨.setup, 0, 0, 0, [], 0⟩
    out := []
    diag := [] }

/-- The action is a spurious return of a channel's wait. -/
def Action.isSpuriousWake : Action → Bool
  | .chan _ .spurious => true
  | _ => false

/-- A schedule in which no channel's wait returns spuriously. -/
def noSpuriousWake (acts : List Action) : Prop :=
  ∀ a ∈ acts, a.isSpuriousWake = false

instance (acts : List Action) : Decidable (noSpuriousWake acts) :=
  inferInstanceAs (Decidable (∀ a ∈ acts, a.isSpuriousWake = false))

/-! ## Predicates used in the statements -/

/-- Shape of a store for `N` interfaces: both vectors have `N` entries, all
within the range of `uint64_t`. -/
structure WF (N : Nat) (s : InterfaceStats) : Prop where
  good_len : s.good_byte_counts_.length = N
  bad_len : s.bad_byte_counts_.length = N
  good_lt : ∀ j, s.good_byte_counts_.getD j 0 < U64
  bad_lt : ∀ j, s.bad_byte_counts_.getD j 0 < U64

/-- A history on one channel whose recorded sizes sum to more than `2^64`:
`2^32 + 2` calls `incrementStat(0, true, 2^32 - 1)`. -/
def wrapHistory : List StoreOp :=
  List.replicate 4294967298 (.record 0 true 4294967295)

/-- The two-channel store after the three `record` calls of the scenario. -/
def scenarioStore : InterfaceStats :=
  { InterfaceStats.new 2 with good_byte_counts_ := [100, 10], bad_byte_counts_ := [50, 0] }

/-- The three `record` calls of the two-channel scenario. -/
def scenarioFirst : List StoreOp :=
  [.record 0 true 100, .record 0 false 50, .record 1 true 10]

/-- An Ethernet frame of which only 20 bytes were captured. -/
def truncatedFrame : Frame := ⟨⟨0, 0⟩, 60, List.replicate 20 0⟩

/-- A frame of declared length 40 with no captured bytes. -/
def frame40 : Frame := ⟨⟨0, 0⟩, 40, []⟩

/-- A 30-byte Ethernet frame whose byte at offset 29 is `b`. -/
def etherFrame (ts : Timeval) (len b : Nat) : Frame := ⟨ts, len, List.replicate 29 0 ++ [b]⟩

/-- A channel thread on a `DLT_NULL` interface, at the top of its loop. -/
def nullChan : Chan := ⟨.poll, DLT_NULL, 0, 0, [], 0⟩

/-- The channel has decremented `to_go_` and has not yet been released: it is
about to enter, or is blocked in, the wait of line 126. -/
def atBarrier : Loc → Bool
  | .arrived _ => true
  | .parked _ => true
  | _ => false

/-- The controller is inside `clearAndPrintStats`, between line 61 and line 85. -/
def inEpisode : CLoc → Bool
  | .test _ _ => true
  | .waiting _ _ => true
  | .notified _ _ => true
  | _ => false

/-- Cutoff of the episode the controller is in. -/
def cutoffOf : CLoc → Option TimePoint
  | .test _ e => some e
  | .waiting _ e => some e
  | .notified _ e => some e
  | _ => none

/-- Invariant of all runs, spurious returns of the waits included: the mutex
excludes, `limiting_` and `limit_` follow the controller, and during an episode
`to_go_` is at most the number of channels not at the barrier. -/
structure Safe (s : Sys) : Prop where
  n_eq : s.stats.num_interfaces_ = (s.chans.length : Int)
  excl : holdsUnique s.ctrl = true → ∀ c ∈ s.chans, holdsShared c.loc = false
  lim : s.stats.limiting_ = inEpisode s.ctrl
  cutoff : ∀ e, cutoffOf s.ctrl = some e → s.stats.limit_ = e
  count_le : inEpisode s.ctrl = true →
    s.stats.to_go_ + ((s.chans.countP (fun c => atBarrier c.loc) : Nat) : Int)
      ≤ (s.chans.length : Int)
  quiet : inEpisode s.ctrl = false → ∀ c ∈ s.chans, atBarrier c.loc = false

/-- Invariant of the runs in which no channel's wait returns spuriously. -/
structure Inv (s : Sys) : Prop where
  n_eq : s.stats.num_interfaces_ = (s.chans.length : Int)
  good_len : s.stats.good_byte_counts_.length = s.chans.length
  bad_len : s.stats.bad_byte_counts_.length = s.chans.length
  excl : holdsUnique s.ctrl = true → ∀ c ∈ s.chans, holdsShared c.loc = false
  lim : s.stats.limiting_ = inEpisode s.ctrl
  cutoff : ∀ e, cutoffOf s.ctrl = some e → s.stats.limit_ = e
  count : inEpisode s.ctrl = true →
    s.stats.to_go_ + ((s.chans.countP (fun c => atBarrier c.loc) : Nat) : Int)
      = (s.chans.length : Int)
  quiet : inEpisode s.ctrl = false → ∀ c ∈ s.chans, atBarrier c.loc = false
  rest : inEpisode s.ctrl = false → s.stats.to_go_ = 0

/-! ## Schedules used as concrete inputs -/

/-- A frame of 60 bytes stamped 1000 ns, with no captured bytes. -/
def lateFrame : Frame := ⟨⟨0, 1⟩, 60, []⟩

/-- Channel `i` takes `k` plain steps. -/
def runs (i k : Nat) : List Action := List.replicate k (.chan i .run)

/-- One channel: a snapshot with cutoff 100 is requested and the channel is
handed a frame stamped 1000; it arrives at the barrier and blocks. -/
def parkSchedule : List Action :=
  [.chan 0 (.setup 0 DLT_NULL), .line 100, .ctrl, .chan 0 (.poll 1 [lateFrame] false)]
    ++ runs 0 4

/-- Schedule `parkSchedule`, then the wait returns spuriously, the frame is
recorded, and only then does the controller take the lock again and read. -/
def leakSchedule : List Action :=
  parkSchedule ++ [.chan 0 .spurious] ++ runs 0 4 ++ [.ctrl, .ctrl]

/-- Two channels; a snapshot with cutoff 100 is requested; channel 0 is handed
three frames stamped 1000 and its wait returns spuriously twice, so it goes
through the boundary check three times; channel 1 never gets there. -/
def tripleArrival : List Action :=
  [.chan 0 (.setup 0 DLT_NULL), .chan 1 (.setup 0 DLT_NULL), .line 100, .ctrl,
   .chan 0 (.poll 1 [lateFrame, lateFrame, lateFrame] false)]
    ++ runs 0 4 ++ [.chan 0 .spurious] ++ runs 0 4
    ++ runs 0 4 ++ [.chan 0 .spurious] ++ runs 0 4
    ++ runs 0 4

/-- One channel is set up and a snapshot with cutoff 100 is requested; the
controller waits for the arrival. -/
def idleSchedule : List Action :=
  [.chan 0 (.setup 0 DLT_NULL), .line 100, .ctrl]

/-- The state after `idleSchedule`. -/
def idleState : Sys :=
  { stats := (InterfaceStats.new 1).clearAndPrintStats_begin 100
    ctrl := .waiting 0 100
    chans := [nullChan]
    out := []
    diag := [] }

/-- Schedule of a channel's pass from line 220 to line 226 when the poll times
out (`n = 0`) or the drain hands over no frame (`0 < n`). -/
def quietPoll (i : Nat) (n : Int) : List Action :=
  if n = 0 then [.chan i (.poll 0 [] false)] else [.chan i (.poll n [] false), .chan i .run]

/-- The step `a`, taken in state `s`, is a decrement of `to_go_` by channel `i`
(line 120). -/
def isArrival (s : Sys) (i : Nat) : Action → Bool
  | .chan j .run =>
    decide (j = i) &&
      (match s.chans[i]? with
       | some c =>
         (match c.loc with
          | .checkLocked tv _ => (s.stats.checkCanRecord tv (i : Int)).2
          | _ => false)
       | none => false)
  | _ => false

/-- Number of times channel `i` decrements `to_go_` along a run. -/
def arrivals (le : Bool) (i : Nat) : Sys → List Action → Nat
  | _, [] => 0
  | s, a :: acts =>
    (if isArrival s i a then 1 else 0) +
      (match step le s a with
       | some s1 => arrivals le i s1 acts
       | none => 0)

/-- The action starts a snapshot. -/
def Action.isLine : Action → Bool
  | .line _ => true
  | _ => false

/-- Channel `i` can no longer decrement `to_go_` before the next snapshot is
started: no episode is active, or the channel is already at the barrier. -/
def Settled (i : Nat) (s : Sys) : Prop :=
  s.stats.limiting_ = false ∨ ∀ c, s.chans[i]? = some c → atBarrier c.loc = true

/-- State of an active episode with cutoff `L` in which channel `i` is held at
the barrier for a boundary check made with time point `tv` at call site `site`,
its counters standing at `g` and `b`. -/
def Held (i : Nat) (tv : TimePoint) (site : Site) (L : TimePoint) (g b : Nat) (s : Sys) : Prop :=
  Inv s ∧ s.stats.limiting_ = true ∧ s.stats.limit_ = L ∧ L ≤ tv ∧
    s.stats.good_byte_counts_.getD i 0 = g ∧ s.stats.bad_byte_counts_.getD i 0 = b ∧
    ∃ c, s.chans[i]? = some c ∧
      (c.loc = .checkLocked tv site ∨ c.loc = .arrived site ∨ c.loc = .parked site)

open InterfaceStats

/-! ## Lemmas on the store -/

theorem printLoop_eq (good bad : List Nat) : ∀ (k i : Nat) (out : String),
    printLoop good bad k i out
      = out ++ joinAll ((List.range' i k).map
          (fun j => pairText (good.getD j 0) (bad.getD j 0))) := by
  intro k
  induction k with
  | zero => intro i out; simp [printLoop, joinAll]
  | succ k ih =>
    intro i out
    rw [printLoop, ih]
    simp [List.range'_succ, joinAll, pairText, String.append_assoc]

theorem map_range_eq_zipWith (good bad : List Nat) (h : good.length = bad.length) :
    (List.range' 0 bad.length).map (fun j => pairText (good.getD j 0) (bad.getD j 0))
      = List.zipWith pairText good bad := by
  apply List.ext_getElem
  · simp [h]
  · intro n h1 h2
    simp at h1 h2
    simp [List.getD_eq_getElem?_getD, List.getElem?_eq_getElem, h1, h2.1]

theorem end_line (s : InterfaceStats) (p e : TimePoint) :
    (s.clearAndPrintStats_end p e).2.1
      = toString (wrapInt64 (e - p)) ++ "ns" ++ joinAll ((List.range' 0 s.bad_byte_counts_.length).map
          (fun j => pairText (s.good_byte_counts_.getD j 0) (s.bad_byte_counts_.getD j 0)))
        ++ "\n" := by
  simp [clearAndPrintStats_end, printLoop_eq]

theorem U64_pos : 0 < U64 := by decide

theorem getD_replicate_zero (n j : Nat) : (List.replicate n 0).getD j 0 = 0 := by
  simp only [List.getD_eq_getElem?_getD, List.getElem?_replicate]
  split <;> rfl

theorem getD_zeroAll (l : List Nat) (j : Nat) : (zeroAll l).getD j 0 = 0 := by
  simp only [zeroAll, List.getD_eq_getElem?_getD, List.getElem?_map]
  cases l[j]? <;> rfl

theorem zeroAll_eq (l : List Nat) : zeroAll l = List.replicate l.length 0 := by
  induction l with
  | nil => rfl
  | cons x xs ih => simp [zeroAll, List.replicate_succ] at ih ⊢

theorem WF_new (N : Nat) : WF N (InterfaceStats.new N) :=
  ⟨by simp [InterfaceStats.new], by simp [InterfaceStats.new],
   fun j => by simp only [InterfaceStats.new, getD_replicate_zero]; exact U64_pos,
   fun j => by simp only [InterfaceStats.new, getD_replicate_zero]; exact U64_pos⟩

theorem WF_end (N : Nat) (s : InterfaceStats) (p e : TimePoint)
    (hg : s.good_byte_counts_.length = N) (hb : s.bad_byte_counts_.length = N) :
    WF N (s.clearAndPrintStats_end p e).1 :=
  ⟨by simp [clearAndPrintStats_end, zeroAll, hg], by simp [clearAndPrintStats_end, zeroAll, hb],
   fun j => by simp only [clearAndPrintStats_end, getD_zeroAll]; exact U64_pos,
   fun j => by simp only [clearAndPrintStats_end, getD_zeroAll]; exact U64_pos⟩

theorem bump_spec (counts : List Nat) (i : Int) (n : Nat) (h0 : 0 ≤ i)
    (hi : i.toNat < counts.length) :
    bump counts i n
      = some (counts.set i.toNat ((counts.getD i.toNat 0 + n % U32) % U64)) := by
  simp [bump, h0, List.getElem?_eq_getElem hi, List.getD_eq_getElem?_getD]

theorem getD_set (l : List Nat) (i j v : Nat) (hi : i < l.length) :
    (l.set i v).getD j 0 = if j = i then v else l.getD j 0 := by
  simp only [List.getD_eq_getElem?_getD, List.getElem?_set]
  by_cases h : i = j
  · subst h; simp [hi]
  · have h2 : ¬ j = i := fun e => h e.symm
    simp [h, h2]

theorem incrementStat_good (s : InterfaceStats) (i : Int) (n : Nat) (h0 : 0 ≤ i)
    (hi : i.toNat < s.good_byte_counts_.length) :
    s.incrementStat i true n
      = some { s with good_byte_counts_ :=
          s.good_byte_counts_.set i.toNat ((s.good_byte_counts_.getD i.toNat 0 + n % U32) % U64) } := by
  simp [incrementStat, bump_spec _ i n h0 hi]

theorem incrementStat_bad (s : InterfaceStats) (i : Int) (n : Nat) (h0 : 0 ≤ i)
    (hi : i.toNat < s.bad_byte_counts_.length) :
    s.incrementStat i false n
      = some { s with bad_byte_counts_ :=
          s.bad_byte_counts_.set i.toNat ((s.bad_byte_counts_.getD i.toNat 0 + n % U32) % U64) } := by
  simp [incrementStat, bump_spec _ i n h0 hi]

/-- One in-range `incrementStat`: the store keeps its shape, the addressed
counter grows by the size modulo `2^64`, every other counter is unchanged. -/
theorem incrementStat_spec (N : Nat) (s : InterfaceStats) (hs : WF N s) (i : Int) (g : Bool)
    (n : Nat) (h0 : 0 ≤ i) (hi : i < (N : Int)) (hn : n < U32) :
    ∃ s1, s.incrementStat i g n = some s1 ∧ WF N s1 ∧
      (∀ j, s1.good_byte_counts_.getD j 0
          = if j = i.toNat ∧ g = true then (s.good_byte_counts_.getD j 0 + n) % U64
            else s.good_byte_counts_.getD j 0) ∧
      (∀ j, s1.bad_byte_counts_.getD j 0
          = if j = i.toNat ∧ g = false then (s.bad_byte_counts_.getD j 0 + n) % U64
            else s.bad_byte_counts_.getD j 0) ∧
      s1.num_interfaces_ = s.num_interfaces_ ∧ s1.limiting_ = s.limiting_ ∧
      s1.limit_ = s.limit_ ∧ s1.to_go_ = s.to_go_ ∧ s1.end_ = s.end_ := by
  have hiN : i.toNat < N := by omega
  have hmod : n % U32 = n := Nat.mod_eq_of_lt hn
  have hgl : i.toNat < s.good_byte_counts_.length := by rw [hs.good_len]; exact hiN
  have hbl : i.toNat < s.bad_byte_counts_.length := by rw [hs.bad_len]; exact hiN
  cases g with
  | true =>
    refine ⟨_, incrementStat_good s i n h0 hgl, ?_, ?_, ?_, rfl, rfl, rfl, rfl, rfl⟩
    · refine ⟨by simp [hs.good_len], hs.bad_len, ?_, hs.bad_lt⟩
      intro j
      show (List.set _ _ _).getD j 0 < U64
      rw [getD_set _ _ _ _ hgl]
      split
      · exact Nat.mod_lt _ U64_pos
      · exact hs.good_lt j
    · intro j
      show (List.set _ _ _).getD j 0 = _
      rw [getD_set _ _ _ _ hgl]
      by_cases hj : j = i.toNat
      · subst hj; simp [hmod]
      · simp [hj]
    · intro j; simp
  | false =>
    refine ⟨_, incrementStat_bad s i n h0 hbl, ?_, ?_, ?_, rfl, rfl, rfl, rfl, rfl⟩
    · refine ⟨hs.good_len, by simp [hs.bad_len], hs.good_lt, ?_⟩
      intro j
      show (List.set _ _ _).getD j 0 < U64
      rw [getD_set _ _ _ _ hbl]
      split
      · exact Nat.mod_lt _ U64_pos
      · exact hs.bad_lt j
    · intro j; simp
    · intro j
      show (List.set _ _ _).getD j 0 = _
      rw [getD_set _ _ _ _ hbl]
      by_cases hj : j = i.toNat
      · subst hj; simp [hmod]
      · simp [hj]

theorem WF_check (N : Nat) (s : InterfaceStats) (hs : WF N s) (tv : TimePoint) (id : Int) :
    WF N (s.checkCanRecord tv id).1 ∧
      (s.checkCanRecord tv id).1.good_byte_counts_ = s.good_byte_counts_ ∧
      (s.checkCanRecord tv id).1.bad_byte_counts_ = s.bad_byte_counts_ := by
  unfold checkCanRecord
  split
  · exact ⟨⟨hs.good_len, hs.bad_len, hs.good_lt, hs.bad_lt⟩, rfl, rfl⟩
  · exact ⟨hs, rfl, rfl⟩

/-- A history of in-range calls runs to its end, and every counter then holds
its old value plus the matching recorded sizes, modulo `2^64`. -/
theorem applyOps_spec (N : Nat) : ∀ (ops : List StoreOp) (s : InterfaceStats), WF N s →
    validOps N ops →
    ∃ s1, applyOps s ops = some s1 ∧ WF N s1 ∧
      (∀ j, j < N → s1.good_byte_counts_.getD j 0
          = (s.good_byte_counts_.getD j 0 + recorded j true ops) % U64) ∧
      (∀ j, j < N → s1.bad_byte_counts_.getD j 0
          = (s.bad_byte_counts_.getD j 0 + recorded j false ops) % U64) := by
  intro ops
  induction ops with
  | nil =>
    intro s hs _
    exact ⟨s, rfl, hs, fun j _ => by rw [recorded, Nat.add_zero, Nat.mod_eq_of_lt (hs.good_lt j)],
      fun j _ => by rw [recorded, Nat.add_zero, Nat.mod_eq_of_lt (hs.bad_lt j)]⟩
  | cons op ops ih =>
    intro s hs hv
    have hv2 : validOps N ops := fun op hm => hv op (List.mem_cons_of_mem _ hm)
    cases op with
    | record i g n =>
      have hr := hv _ (List.mem_cons_self _ _)
      simp only [StoreOp.inRange, decide_eq_true_eq] at hr
      obtain ⟨h0, hi, hn⟩ := hr
      obtain ⟨s1, e1, w1, hg1, hb1, -⟩ := incrementStat_spec N s hs i g n h0 hi hn
      obtain ⟨s2, e2, w2, hg2, hb2⟩ := ih s1 w1 hv2
      refine ⟨s2, by simp [applyOps, applyOp, e1, e2], w2, ?_, ?_⟩
      · intro j hj
        rw [hg2 j hj, hg1 j]
        have hcast : (i = (j : Int)) ↔ (j = i.toNat) := by omega
        by_cases hc : j = i.toNat ∧ g = true
        · have hc2 : i = (j : Int) ∧ g = true := ⟨hcast.mpr hc.1, hc.2⟩
          rw [recorded, if_pos hc2, if_pos hc, Nat.mod_add_mod, Nat.add_assoc]
        · have hc2 : ¬ (i = (j : Int) ∧ g = true) := fun h => hc ⟨hcast.mp h.1, h.2⟩
          rw [recorded, if_neg hc2, if_neg hc, Nat.zero_add]
      · intro j hj
        rw [hb2 j hj, hb1 j]
        have hcast : (i = (j : Int)) ↔ (j = i.toNat) := by omega
        by_cases hc : j = i.toNat ∧ g = false
        · have hc2 : i = (j : Int) ∧ g = false := ⟨hcast.mpr hc.1, hc.2⟩
          rw [recorded, if_pos hc2, if_pos hc, Nat.mod_add_mod, Nat.add_assoc]
        · have hc2 : ¬ (i = (j : Int) ∧ g = false) := fun h => hc ⟨hcast.mp h.1, h.2⟩
          rw [recorded, if_neg hc2, if_neg hc, Nat.zero_add]
    | check tv id =>
      obtain ⟨w1, hg1, hb1⟩ := WF_check N s hs tv id
      obtain ⟨s2, e2, w2, hg2, hb2⟩ := ih _ w1 hv2
      refine ⟨s2, by simp [applyOps, applyOp, e2], w2, ?_, ?_⟩
      · intro j hj; rw [hg2 j hj, hg1]; simp [recorded]
      · intro j hj; rw [hb2 j hj, hb1]; simp [recorded]
    | «begin» e =>
      have w1 : WF N (s.clearAndPrintStats_begin e) :=
        ⟨hs.good_len, hs.bad_len, hs.good_lt, hs.bad_lt⟩
      obtain ⟨s2, e2, w2, hg2, hb2⟩ := ih _ w1 hv2
      refine ⟨s2, by simp [applyOps, applyOp, e2], w2, ?_, ?_⟩
      · intro j hj; rw [hg2 j hj]; simp [recorded, clearAndPrintStats_begin]
      · intro j hj; rw [hb2 j hj]; simp [recorded, clearAndPrintStats_begin]
    | signalEnd =>
      have w1 : WF N s.signalEnd := ⟨hs.good_len, hs.bad_len, hs.good_lt, hs.bad_lt⟩
      obtain ⟨s2, e2, w2, hg2, hb2⟩ := ih _ w1 hv2
      refine ⟨s2, by simp [applyOps, applyOp, e2], w2, ?_, ?_⟩
      · intro j hj; rw [hg2 j hj]; simp [recorded, signalEnd]
      · intro j hj; rw [hb2 j hj]; simp [recorded, signalEnd]

/-! ## Lemmas on the thread model -/

theorem incrementStat_frame (s s1 : InterfaceStats) (i : Int) (g : Bool) (n : Nat)
    (h : s.incrementStat i g n = some s1) :
    s1.num_interfaces_ = s.num_interfaces_ ∧ s1.limiting_ = s.limiting_ ∧
    s1.limit_ = s.limit_ ∧ s1.to_go_ = s.to_go_ ∧ s1.end_ = s.end_ ∧
    s1.good_byte_counts_.length = s.good_byte_counts_.length ∧
    s1.bad_byte_counts_.length = s.bad_byte_counts_.length := by
  unfold incrementStat at h
  split at h
  · simp only [Option.map_eq_some'] at h
    obtain ⟨l, hl, rfl⟩ := h
    refine ⟨rfl, rfl, rfl, rfl, rfl, ?_, rfl⟩
    unfold bump at hl
    split at hl
    · split at hl
      · simp only [Option.some.injEq] at hl; subst hl; simp
      · simp at hl
    · simp at hl
  · simp only [Option.map_eq_some'] at h
    obtain ⟨l, hl, rfl⟩ := h
    refine ⟨rfl, rfl, rfl, rfl, rfl, rfl, ?_⟩
    unfold bump at hl
    split at hl
    · split at hl
      · simp only [Option.some.injEq] at hl; subst hl; simp
      · simp at hl
    · simp at hl

theorem checkCanRecord_true (s st : InterfaceStats) (tv : TimePoint) (id : Int)
    (h : s.checkCanRecord tv id = (st, true)) :
    st = { s with to_go_ := s.to_go_ - 1 } ∧ s.limiting_ = true ∧ s.limit_ ≤ tv := by
  unfold checkCanRecord at h
  split at h
  · rename_i hc
    simp only [Bool.and_eq_true, decide_eq_true_eq] at hc
    simp only [Prod.mk.injEq, and_true] at h
    exact ⟨h.symm, hc.1, hc.2⟩
  · simp at h

theorem checkCanRecord_false (s st : InterfaceStats) (tv : TimePoint) (id : Int)
    (h : s.checkCanRecord tv id = (st, false)) :
    st = s ∧ (s.limiting_ = false ∨ tv < s.limit_) := by
  unfold checkCanRecord at h
  split at h
  · simp at h
  · rename_i hc
    simp only [Bool.and_eq_true, decide_eq_true_eq, not_and, not_le] at hc
    simp only [Prod.mk.injEq, and_true] at h
    refine ⟨h.symm, ?_⟩
    cases hl : s.limiting_
    · exact Or.inl rfl
    · exact Or.inr (hc hl)

theorem notifyHitLimit_unique (c : CLoc) : holdsUnique (notifyHitLimit c) = holdsUnique c := by
  cases c <;> rfl

theorem notifyHitLimit_episode (c : CLoc) : inEpisode (notifyHitLimit c) = inEpisode c := by
  cases c <;> rfl

theorem notifyHitLimit_cutoff (c : CLoc) : cutoffOf (notifyHitLimit c) = cutoffOf c := by
  cases c <;> rfl

/-- What a step of a channel other than a spurious return can change. -/
theorem monitorInterface_frame (le : Bool) (stats : InterfaceStats) (ctrl : CLoc) (i : Nat)
    (c : Chan) (a : ChanAct) (o : ChanOut)
    (h : monitorInterface le stats ctrl i c a = some o) (ha : a ≠ .spurious) :
    holdsUnique o.ctrl = holdsUnique ctrl ∧ inEpisode o.ctrl = inEpisode ctrl ∧
    cutoffOf o.ctrl = cutoffOf ctrl ∧
    o.stats.num_interfaces_ = stats.num_interfaces_ ∧
    o.stats.limiting_ = stats.limiting_ ∧ o.stats.limit_ = stats.limit_ ∧
    o.stats.good_byte_counts_.length = stats.good_byte_counts_.length ∧
    o.stats.bad_byte_counts_.length = stats.bad_byte_counts_.length ∧
    (holdsUnique ctrl = true → holdsShared o.chan.loc = true → holdsShared c.loc = true) ∧
    ((atBarrier o.chan.loc = atBarrier c.loc ∧ o.stats.to_go_ = stats.to_go_) ∨
      (atBarrier c.loc = false ∧ atBarrier o.chan.loc = true ∧
        o.stats.to_go_ = stats.to_go_ - 1 ∧ stats.limiting_ = true)) := by
  obtain ⟨loc, lt, ne, cp, batch, ret⟩ := c
  cases loc <;> cases a <;> simp only [monitorInterface] at h <;> try contradiction
  all_goals (repeat' split at h) <;> try contradiction
  all_goals (try (simp only [Option.some.injEq] at h; subst h))
  all_goals (try (simp [holdsShared, atBarrier, afterCheck, *]; done))
  · rename_i site _ st heq
    obtain ⟨rfl, hl, -⟩ := checkCanRecord_true _ _ _ _ heq
    simp [holdsShared, atBarrier, hl, notifyHitLimit_unique, notifyHitLimit_episode,
      notifyHitLimit_cutoff]
  · rename_i site _ st heq
    obtain ⟨rfl, -⟩ := checkCanRecord_false _ _ _ _ heq
    cases site <;> simp [holdsShared, atBarrier, afterCheck]
  · rename_i site hu
    cases site <;> simp [holdsShared, atBarrier, afterCheck]
  · rename_i _ st heq
    obtain ⟨h1, h2, h3, h4, -, h6, h7⟩ := incrementStat_frame _ _ _ _ _ heq
    simp [holdsShared, atBarrier, h1, h2, h3, h4, h6, h7]

theorem countP_set_eq {α : Type} (p : α → Bool) (l : List α) (i : Nat) (x : α)
    (h : i < l.length) (hp : p x = p l[i]) : List.countP p (l.set i x) = List.countP p l := by
  rw [List.countP_set p l i x h, hp]
  by_cases hc : p l[i] = true
  · have hpos : 0 < List.countP p l := List.countP_pos_iff.mpr ⟨l[i], List.getElem_mem h, hc⟩
    simp only [hc, if_true]
    omega
  · simp [hc]

theorem countP_set_succ {α : Type} (p : α → Bool) (l : List α) (i : Nat) (x : α)
    (h : i < l.length) (h1 : p l[i] = false) (h2 : p x = true) :
    List.countP p (l.set i x) = List.countP p l + 1 := by
  rw [List.countP_set p l i x h, h1, h2]
  simp

theorem noReader_iff (chans : List Chan) :
    noReader chans = true ↔ ∀ c ∈ chans, holdsShared c.loc = false := by
  simp [noReader, List.all_eq_true]

/-- A step of a channel, other than a spurious return of its wait, keeps the
invariant. -/
theorem Inv_chan (le : Bool) (s : Sys) (i : Nat) (c : Chan) (a : ChanAct) (o : ChanOut)
    (hinv : Inv s) (hc : s.chans[i]? = some c)
    (h : monitorInterface le s.stats s.ctrl i c a = some o) (ha : a ≠ .spurious) :
    Inv { s with chans := s.chans.set i o.chan, stats := o.stats, ctrl := o.ctrl
                 diag := s.diag ++ o.diag } := by
  obtain ⟨hu, he, hcut, hn, hl, hlt, hgl, hbl, hsh, hcnt⟩ :=
    monitorInterface_frame le s.stats s.ctrl i c a o h ha
  obtain ⟨hi, hci⟩ := List.getElem?_eq_some.mp hc
  have hmem : c ∈ s.chans := hci ▸ List.getElem_mem hi
  have hset : ∀ x ∈ s.chans.set i o.chan, x ∈ s.chans ∨ x = o.chan :=
    fun x hx => List.mem_or_eq_of_mem_set hx
  refine ⟨?_, ?_, ?_, ?_, ?_, ?_, ?_, ?_, ?_⟩
  · simp only [List.length_set]; rw [hn]; exact hinv.n_eq
  · simp only [List.length_set]; rw [hgl]; exact hinv.good_len
  · simp only [List.length_set]; rw [hbl]; exact hinv.bad_len
  · intro hU x hx
    simp only [] at hU hx
    rw [hu] at hU
    rcases hset x hx with hx | rfl
    · exact hinv.excl hU x hx
    · cases hsx : holdsShared o.chan.loc
      · rfl
      · have := hsh hU hsx
        rw [hinv.excl hU c hmem] at this
        exact absurd this (by simp)
  · simp only []; rw [hl, he]; exact hinv.lim
  · intro e hce
    simp only [] at hce ⊢
    rw [hcut] at hce
    rw [hlt]
    exact hinv.cutoff e hce
  · intro hE
    simp only [] at hE ⊢
    rw [he] at hE
    have h0 := hinv.count hE
    simp only [List.length_set]
    rcases hcnt with ⟨hp, htg⟩ | ⟨hp1, hp2, htg, -⟩
    · rw [countP_set_eq _ _ _ _ hi (by simp only [hci]; exact hp), htg]
      exact h0
    · rw [countP_set_succ _ _ _ _ hi (by simp only [hci]; exact hp1) hp2, htg]
      push_cast
      omega
  · intro hE x hx
    simp only [] at hE hx
    rw [he] at hE
    rcases hset x hx with hx | rfl
    · exact hinv.quiet hE x hx
    · rcases hcnt with ⟨hp, -⟩ | ⟨-, -, -, hlim⟩
      · rw [hp]; exact hinv.quiet hE c hmem
      · rw [hinv.lim, hE] at hlim
        exact absurd hlim (by simp)
  · intro hE
    simp only [] at hE ⊢
    rw [he] at hE
    rcases hcnt with ⟨-, htg⟩ | ⟨-, -, -, hlim⟩
    · rw [htg]; exact hinv.rest hE
    · rw [hinv.lim, hE] at hlim
      exact absurd hlim (by simp)

theorem notifyStopped_atBarrier (c : Chan) (h : holdsShared c.loc = false) :
    atBarrier (notifyStopped c).loc = false := by
  obtain ⟨loc, lt, ne, cp, batch, ret⟩ := c
  cases loc <;> simp_all [notifyStopped, atBarrier, holdsShared]

/-- A step of the controller keeps the invariant. -/
theorem Inv_main (s s1 : Sys) (a : Action) (hinv : Inv s) (h : main s a = some s1) :
    Inv s1 := by
  obtain ⟨stats, ctrl, chans, out, diag⟩ := s
  cases a with
  | chan i a => simp [main] at h
  | line now =>
    cases ctrl <;> simp only [main] at h <;> try contradiction
    split at h <;> try contradiction
    rename_i hnr
    simp only [Option.some.injEq] at h
    subst h
    have hq := hinv.quiet rfl
    refine ⟨hinv.n_eq, hinv.good_len, hinv.bad_len, fun _ => (noReader_iff _).mp hnr, rfl,
      ?_, ?_, fun hE => absurd hE (by simp [inEpisode]),
      fun hE => absurd hE (by simp [inEpisode])⟩
    · intro e he
      simp only [cutoffOf, Option.some.injEq] at he
      simp only [clearAndPrintStats_begin]
      exact he
    · intro _
      have hz : List.countP (fun c => atBarrier c.loc) chans = 0 :=
        List.countP_eq_zero.mpr (fun c hc => by simp [hq c hc])
      simp only [clearAndPrintStats_begin]
      simp only [] at hz
      rw [hz]
      simpa using hinv.n_eq
  | eof =>
    cases ctrl <;> simp only [main] at h <;> try contradiction
    split at h <;> try contradiction
    simp only [Option.some.injEq] at h
    subst h
    exact ⟨hinv.n_eq, hinv.good_len, hinv.bad_len, fun hU => absurd hU (by simp [holdsUnique]),
      hinv.lim, fun e he => absurd he (by simp [cutoffOf]),
      fun hE => absurd hE (by simp [inEpisode]), fun _ => hinv.quiet rfl,
      fun _ => hinv.rest rfl⟩
  | ctrlSpurious =>
    cases ctrl <;> simp only [main] at h <;> try contradiction
    simp only [Option.some.injEq] at h
    subst h
    exact ⟨hinv.n_eq, hinv.good_len, hinv.bad_len, fun hU => absurd hU (by simp [holdsUnique]),
      hinv.lim, fun e he => hinv.cutoff e he, fun _ => hinv.count rfl,
      fun hE => absurd hE (by simp [inEpisode]), fun hE => absurd hE (by simp [inEpisode])⟩
  | ctrl =>
    cases ctrl <;> simp only [main] at h <;> try contradiction
    · -- line 65, lock held
      split at h
      · simp only [Option.some.injEq] at h
        subst h
        exact ⟨hinv.n_eq, hinv.good_len, hinv.bad_len,
          fun hU => absurd hU (by simp [holdsUnique]),
          hinv.lim, fun e he => hinv.cutoff e he, fun _ => hinv.count rfl,
          fun hE => absurd hE (by simp [inEpisode]), fun hE => absurd hE (by simp [inEpisode])⟩
      · rename_i hmw
        simp only [Option.some.injEq] at h
        subst h
        have hx := hinv.excl rfl
        refine ⟨?_, ?_, ?_, fun hU => absurd hU (by simp [holdsUnique]), rfl,
          fun e he => absurd he (by simp [cutoffOf]),
          fun hE => absurd hE (by simp [inEpisode]), ?_, ?_⟩
        · simpa [clearAndPrintStats_end] using hinv.n_eq
        · simpa [clearAndPrintStats_end, zeroAll] using hinv.good_len
        · simpa [clearAndPrintStats_end, zeroAll] using hinv.bad_len
        · intro _ c hc
          simp only [List.mem_map] at hc
          obtain ⟨c0, hc0, rfl⟩ := hc
          exact notifyStopped_atBarrier c0 (hx c0 hc0)
        · intro _
          simp only [mustWait, decide_eq_true_eq, not_lt] at hmw
          have h0 := hinv.count rfl
          have hle : List.countP (fun c => atBarrier c.loc) chans ≤ chans.length :=
            List.countP_le_length _
          simp only [clearAndPrintStats_end]
          simp only [] at h0 hmw
          omega
    · -- wait left, lock to be taken again
      split at h <;> try contradiction
      rename_i hnr
      simp only [Option.some.injEq] at h
      subst h
      exact ⟨hinv.n_eq, hinv.good_len, hinv.bad_len, fun _ => (noReader_iff _).mp hnr,
        hinv.lim, fun e he => hinv.cutoff e he, fun _ => hinv.count rfl,
        fun hE => absurd hE (by simp [inEpisode]), fun hE => absurd hE (by simp [inEpisode])⟩
    · -- joining
      split at h <;> try contradiction
      simp only [Option.some.injEq] at h
      subst h
      exact ⟨hinv.n_eq, hinv.good_len, hinv.bad_len,
        fun hU => absurd hU (by simp [holdsUnique]),
        hinv.lim, fun e he => absurd he (by simp [cutoffOf]),
        fun hE => absurd hE (by simp [inEpisode]), fun _ => hinv.quiet rfl,
      fun _ => hinv.rest rfl⟩

/-- A step other than a spurious return of a channel's wait keeps the invariant. -/
theorem Inv_step (le : Bool) (s s1 : Sys) (a : Action) (hinv : Inv s)
    (ha : a.isSpuriousWake = false) (h : step le s a = some s1) : Inv s1 := by
  cases a with
  | chan i act =>
    simp only [step] at h
    cases hc : s.chans[i]? with
    | none => simp [hc] at h
    | some c =>
      simp only [hc, Option.map_eq_some'] at h
      obtain ⟨o, ho, rfl⟩ := h
      refine Inv_chan le s i c act o hinv hc ho ?_
      intro hsp
      subst hsp
      simp [Action.isSpuriousWake] at ha
  | line now => exact Inv_main s s1 (.line now) hinv (by simpa only [step] using h)
  | eof => exact Inv_main s s1 .eof hinv (by simpa only [step] using h)
  | ctrl => exact Inv_main s s1 .ctrl hinv (by simpa only [step] using h)
  | ctrlSpurious => exact Inv_main s s1 .ctrlSpurious hinv (by simpa only [step] using h)

theorem noSpuriousWake_cons (a : Action) (acts : List Action) (h : noSpuriousWake (a :: acts)) :
    a.isSpuriousWake = false ∧ noSpuriousWake acts :=
  ⟨h a (List.mem_cons_self _ _), fun b hb => h b (List.mem_cons_of_mem _ hb)⟩

/-- A run without spurious returns keeps the invariant. -/
theorem Inv_run (le : Bool) : ∀ (acts : List Action) (s s1 : Sys), Inv s →
    noSpuriousWake acts → run le s acts = some s1 → Inv s1 := by
  intro acts
  induction acts with
  | nil =>
    intro s s1 hinv _ h
    simp only [run, Option.some.injEq] at h
    exact h ▸ hinv
  | cons a acts ih =>
    intro s s1 hinv hns h
    obtain ⟨ha, hns2⟩ := noSpuriousWake_cons a acts hns
    simp only [run] at h
    cases hs : step le s a with
    | none => simp [hs] at h
    | some s2 =>
      simp only [hs, Option.some_bind] at h
      exact ih s2 s1 (Inv_step le s s2 a hinv ha hs) hns2 h

/-- The initial state satisfies the invariant. -/
theorem Inv_init (N : Nat) (startTime : TimePoint) : Inv (Sys.init N startTime) := by
  refine ⟨?_, ?_, ?_, fun hU => absurd hU (by simp [Sys.init, holdsUnique]), rfl,
    fun e he => absurd he (by simp [Sys.init, cutoffOf]),
    fun hE => absurd hE (by simp [Sys.init, inEpisode]), ?_, fun _ => rfl⟩
  · simp [Sys.init, InterfaceStats.new]
  · simp [Sys.init, InterfaceStats.new]
  · simp [Sys.init, InterfaceStats.new]
  · intro _ c hc
    simp only [Sys.init, List.mem_replicate] at hc
    rw [hc.2]
    rfl

/-- Every state reached from the start without a spurious return of a
channel's wait satisfies the invariant. -/
theorem Inv_reachable (le : Bool) (N : Nat) (startTime : TimePoint) (acts : List Action)
    (s : Sys) (hns : noSpuriousWake acts) (h : run le (Sys.init N startTime) acts = some s) :
    Inv s :=
  Inv_run le acts _ s (Inv_init N startTime) hns h

theorem monitorInterface_spurious (le : Bool) (stats : InterfaceStats) (ctrl : CLoc) (i : Nat)
    (c : Chan) (o : ChanOut) (h : monitorInterface le stats ctrl i c .spurious = some o) :
    o.stats = stats ∧ o.ctrl = ctrl ∧ atBarrier o.chan.loc = false ∧
      holdsShared o.chan.loc = false ∧ atBarrier c.loc = true := by
  obtain ⟨loc, lt, ne, cp, batch, ret⟩ := c
  cases loc <;> simp only [monitorInterface] at h <;> try contradiction
  simp only [Option.some.injEq] at h
  subst h
  exact ⟨rfl, rfl, rfl, rfl, rfl⟩

theorem countP_set_le {α : Type} (p : α → Bool) (l : List α) (i : Nat) (x : α)
    (h : i < l.length) (hp : p x = false) : List.countP p (l.set i x) ≤ List.countP p l := by
  rw [List.countP_set p l i x h, hp]
  simp

/-- A step of a channel keeps the invariant of all runs. -/
theorem Safe_chan (le : Bool) (s : Sys) (i : Nat) (c : Chan) (a : ChanAct) (o : ChanOut)
    (hinv : Safe s) (hc : s.chans[i]? = some c)
    (h : monitorInterface le s.stats s.ctrl i c a = some o) :
    Safe { s with chans := s.chans.set i o.chan, stats := o.stats, ctrl := o.ctrl
                  diag := s.diag ++ o.diag } := by
  obtain ⟨hi, hci⟩ := List.getElem?_eq_some.mp hc
  have hmem : c ∈ s.chans := hci ▸ List.getElem_mem hi
  have hset : ∀ x ∈ s.chans.set i o.chan, x ∈ s.chans ∨ x = o.chan :=
    fun x hx => List.mem_or_eq_of_mem_set hx
  by_cases ha : a = .spurious
  · subst ha
    obtain ⟨hst, hct, hb, hsh, -⟩ := monitorInterface_spurious le s.stats s.ctrl i c o h
    refine ⟨?_, ?_, ?_, ?_, ?_, ?_⟩
    · simp only [List.length_set]; rw [hst]; exact hinv.n_eq
    · intro hU x hx
      simp only [] at hU hx
      rw [hct] at hU
      rcases hset x hx with hx | rfl
      · exact hinv.excl hU x hx
      · exact hsh
    · simp only []; rw [hst, hct]; exact hinv.lim
    · intro e hce
      simp only [] at hce ⊢
      rw [hct] at hce
      rw [hst]
      exact hinv.cutoff e hce
    · intro hE
      simp only [] at hE ⊢
      rw [hct] at hE
      have h0 := hinv.count_le hE
      have hle := countP_set_le (fun c : Chan => atBarrier c.loc) s.chans i o.chan hi hb
      simp only [List.length_set]
      rw [hst]
      omega
    · intro hE x hx
      simp only [] at hE hx
      rw [hct] at hE
      rcases hset x hx with hx | rfl
      · exact hinv.quiet hE x hx
      · exact hb
  · obtain ⟨hu, he, hcut, hn, hl, hlt, -, -, hsh, hcnt⟩ :=
      monitorInterface_frame le s.stats s.ctrl i c a o h ha
    refine ⟨?_, ?_, ?_, ?_, ?_, ?_⟩
    · simp only [List.length_set]; rw [hn]; exact hinv.n_eq
    · intro hU x hx
      simp only [] at hU hx
      rw [hu] at hU
      rcases hset x hx with hx | rfl
      · exact hinv.excl hU x hx
      · cases hsx : holdsShared o.chan.loc
        · rfl
        · have := hsh hU hsx
          rw [hinv.excl hU c hmem] at this
          exact absurd this (by simp)
    · simp only []; rw [hl, he]; exact hinv.lim
    · intro e hce
      simp only [] at hce ⊢
      rw [hcut] at hce
      rw [hlt]
      exact hinv.cutoff e hce
    · intro hE
      simp only [] at hE ⊢
      rw [he] at hE
      have h0 := hinv.count_le hE
      simp only [List.length_set]
      rcases hcnt with ⟨hp, htg⟩ | ⟨hp1, hp2, htg, -⟩
      · rw [countP_set_eq _ _ _ _ hi (by simp only [hci]; exact hp), htg]
        exact h0
      · rw [countP_set_succ _ _ _ _ hi (by simp only [hci]; exact hp1) hp2, htg]
        push_cast
        omega
    · intro hE x hx
      simp only [] at hE hx
      rw [he] at hE
      rcases hset x hx with hx | rfl
      · exact hinv.quiet hE x hx
      · rcases hcnt with ⟨hp, -⟩ | ⟨-, -, -, hlim⟩
        · rw [hp]; exact hinv.quiet hE c hmem
        · rw [hinv.lim, hE] at hlim
          exact absurd hlim (by simp)

/-- A step of the controller keeps the invariant of all runs. -/
theorem Safe_main (s s1 : Sys) (a : Action) (hinv : Safe s) (h : main s a = some s1) :
    Safe s1 := by
  obtain ⟨stats, ctrl, chans, out, diag⟩ := s
  cases a with
  | chan i a => simp [main] at h
  | line now =>
    cases ctrl <;> simp only [main] at h <;> try contradiction
    split at h <;> try contradiction
    rename_i hnr
    simp only [Option.some.injEq] at h
    subst h
    have hq := hinv.quiet rfl
    refine ⟨hinv.n_eq, fun _ => (noReader_iff _).mp hnr, rfl, ?_, ?_,
      fun hE => absurd hE (by simp [inEpisode])⟩
    · intro e he
      simp only [cutoffOf, Option.some.injEq] at he
      simp only [clearAndPrintStats_begin]
      exact he
    · intro _
      have hz : List.countP (fun c => atBarrier c.loc) chans = 0 :=
        List.countP_eq_zero.mpr (fun c hc => by simp [hq c hc])
      simp only [clearAndPrintStats_begin]
      simp only [] at hz
      rw [hz]
      have := hinv.n_eq
      simp only [] at this
      omega
  | eof =>
    cases ctrl <;> simp only [main] at h <;> try contradiction
    split at h <;> try contradiction
    simp only [Option.some.injEq] at h
    subst h
    exact ⟨hinv.n_eq, fun hU => absurd hU (by simp [holdsUnique]),
      hinv.lim, fun e he => absurd he (by simp [cutoffOf]),
      fun hE => absurd hE (by simp [inEpisode]), fun _ => hinv.quiet rfl⟩
  | ctrlSpurious =>
    cases ctrl <;> simp only [main] at h <;> try contradiction
    simp only [Option.some.injEq] at h
    subst h
    exact ⟨hinv.n_eq, fun hU => absurd hU (by simp [holdsUnique]),
      hinv.lim, fun e he => hinv.cutoff e he, fun _ => hinv.count_le rfl,
      fun hE => absurd hE (by simp [inEpisode])⟩
  | ctrl =>
    cases ctrl <;> simp only [main] at h <;> try contradiction
    · split at h
      · simp only [Option.some.injEq] at h
        subst h
        exact ⟨hinv.n_eq, fun hU => absurd hU (by simp [holdsUnique]),
          hinv.lim, fun e he => hinv.cutoff e he, fun _ => hinv.count_le rfl,
          fun hE => absurd hE (by simp [inEpisode])⟩
      · simp only [Option.some.injEq] at h
        subst h
        have hx := hinv.excl rfl
        refine ⟨?_, fun hU => absurd hU (by simp [holdsUnique]), rfl,
          fun e he => absurd he (by simp [cutoffOf]),
          fun hE => absurd hE (by simp [inEpisode]), ?_⟩
        · simpa [clearAndPrintStats_end] using hinv.n_eq
        · intro _ c hc
          simp only [List.mem_map] at hc
          obtain ⟨c0, hc0, rfl⟩ := hc
          exact notifyStopped_atBarrier c0 (hx c0 hc0)
    · split at h <;> try contradiction
      rename_i hnr
      simp only [Option.some.injEq] at h
      subst h
      exact ⟨hinv.n_eq, fun _ => (noReader_iff _).mp hnr,
        hinv.lim, fun e he => hinv.cutoff e he, fun _ => hinv.count_le rfl,
        fun hE => absurd hE (by simp [inEpisode])⟩
    · split at h <;> try contradiction
      simp only [Option.some.injEq] at h
      subst h
      exact ⟨hinv.n_eq, fun hU => absurd hU (by simp [holdsUnique]),
        hinv.lim, fun e he => absurd he (by simp [cutoffOf]),
        fun hE => absurd hE (by simp [inEpisode]), fun _ => hinv.quiet rfl⟩

/-- Every step keeps the invariant of all runs. -/
theorem Safe_step (le : Bool) (s s1 : Sys) (a : Action) (hinv : Safe s)
    (h : step le s a = some s1) : Safe s1 := by
  cases a with
  | chan i act =>
    simp only [step] at h
    cases hc : s.chans[i]? with
    | none => simp [hc] at h
    | some c =>
      simp only [hc, Option.map_eq_some'] at h
      obtain ⟨o, ho, rfl⟩ := h
      exact Safe_chan le s i c act o hinv hc ho
  | line now => exact Safe_main s s1 (.line now) hinv (by simpa only [step] using h)
  | eof => exact Safe_main s s1 .eof hinv (by simpa only [step] using h)
  | ctrl => exact Safe_main s s1 .ctrl hinv (by simpa only [step] using h)
  | ctrlSpurious => exact Safe_main s s1 .ctrlSpurious hinv (by simpa only [step] using h)

/-- Every run keeps the invariant of all runs. -/
theorem Safe_run (le : Bool) : ∀ (acts : List Action) (s s1 : Sys), Safe s →
    run le s acts = some s1 → Safe s1 := by
  intro acts
  induction acts with
  | nil =>
    intro s s1 hinv h
    simp only [run, Option.some.injEq] at h
    exact h ▸ hinv
  | cons a acts ih =>
    intro s s1 hinv h
    simp only [run] at h
    cases hs : step le s a with
    | none => simp [hs] at h
    | some s2 =>
      simp only [hs, Option.some_bind] at h
      exact ih s2 s1 (Safe_step le s s2 a hinv hs) h

/-- Every state reached from the start satisfies the invariant of all runs. -/
theorem Safe_reachable (le : Bool) (N : Nat) (startTime : TimePoint) (acts : List Action)
    (s : Sys) (h : run le (Sys.init N startTime) acts = some s) : Safe s := by
  refine Safe_run le acts _ s ?_ h
  refine ⟨?_, fun hU => absurd hU (by simp [Sys.init, holdsUnique]), rfl,
    fun e he => absurd he (by simp [Sys.init, cutoffOf]),
    fun hE => absurd hE (by simp [Sys.init, inEpisode]), ?_⟩
  · simp [Sys.init, InterfaceStats.new]
  · intro _ c hc
    simp only [Sys.init, List.mem_replicate] at hc
    rw [hc.2]
    rfl

theorem step_chan (le : Bool) (s : Sys) (i : Nat) (c : Chan) (a : ChanAct) (o : ChanOut)
    (hc : s.chans[i]? = some c) (h : monitorInterface le s.stats s.ctrl i c a = some o) :
    step le s (.chan i a)
      = some { s with chans := s.chans.set i o.chan, stats := o.stats, ctrl := o.ctrl
                      diag := s.diag ++ o.diag } := by
  simp [step, hc, h]

theorem step_chan_none (le : Bool) (s : Sys) (i : Nat) (c : Chan) (a : ChanAct)
    (hc : s.chans[i]? = some c) (h : monitorInterface le s.stats s.ctrl i c a = none) :
    step le s (.chan i a) = none := by
  simp [step, hc, h]

theorem getElem?_set_self {α : Type} (l : List α) (i : Nat) (c x : α) (hc : l[i]? = some c) :
    (l.set i x)[i]? = some x := by
  have hi : i < l.length := (List.getElem?_eq_some.mp hc).1
  simp [List.getElem?_set, hi]

/-- At line 226 with the condition of the idle check true, the thread cannot go
on to `finished()`; its only move is the call `checkCanRecord(now(), index)`. -/
theorem idle_check_only (le : Bool) (s1 : Sys) (i : Nat) (c1 : Chan) (now : TimePoint)
    (hc1 : s1.chans[i]? = some c1) (hloc : c1.loc = .afterDispatch)
    (hcond : c1.n_evts = 0 ∨ c1.count_processed = 0) :
    step le s1 (.chan i .run) = none ∧
    step le s1 (.chan i (.idle now))
      = some { s1 with chans := s1.chans.set i { c1 with loc := .check now .idle } } := by
  obtain ⟨loc, lt, ne, cp, batch, ret⟩ := c1
  simp only [] at hloc hcond
  subst hloc
  refine ⟨step_chan_none le s1 i _ .run hc1 (by simp [monitorInterface, hcond]), ?_⟩
  simp only [step, hc1, monitorInterface, hcond, if_true, Option.map_some', List.append_nil]

/-- The idle check of a channel during an active episode, with the controller
out of the lock and `now()` at or after the cutoff: the check decrements
`to_go_`, notifies the controller and blocks the channel. -/
theorem idle_arrival (le : Bool) (s1 : Sys) (i : Nat) (c1 : Chan) (p e now : TimePoint)
    (hinv : Safe s1) (hc1 : s1.chans[i]? = some c1)
    (hctrl : s1.ctrl = .waiting p e ∨ s1.ctrl = .notified p e) (hnow : e ≤ now) :
    run le { s1 with chans := s1.chans.set i { c1 with loc := .check now .idle } }
        [.chan i .run, .chan i .run, .chan i .run]
      = some { s1 with chans := s1.chans.set i { c1 with loc := .parked .idle }
                       stats := { s1.stats with to_go_ := s1.stats.to_go_ - 1 }
                       ctrl := .notified p e } := by
  have hE : inEpisode s1.ctrl = true := by rcases hctrl with h | h <;> rw [h] <;> rfl
  have hU : holdsUnique s1.ctrl = false := by rcases hctrl with h | h <;> rw [h] <;> rfl
  have hlim : s1.stats.limiting_ = true := by rw [hinv.lim]; exact hE
  have hcut : s1.stats.limit_ = e := by
    apply hinv.cutoff
    rcases hctrl with h | h <;> rw [h] <;> rfl
  have hnot : notifyHitLimit s1.ctrl = .notified p e := by
    rcases hctrl with h | h <;> rw [h] <;> rfl
  have hcc : s1.stats.checkCanRecord now (i : Int)
      = ({ s1.stats with to_go_ := s1.stats.to_go_ - 1 }, true) := by
    unfold checkCanRecord
    rw [if_pos]
    simp only [hlim, Bool.true_and, decide_eq_true_eq, hcut]
    exact hnow
  simp only [run, step, getElem?_set_self _ _ _ _ hc1, monitorInterface, hU, hcc,
    Bool.false_eq_true, if_false, Option.map_some', Option.some_bind, List.set_set,
    List.append_nil, hnot]

/-- Once every channel is blocked at the barrier, the controller takes the lock
again, leaves the wait loop, prints the line and returns. -/
theorem finish_when_all_parked (le : Bool) (s3 : Sys) (p e : TimePoint) (hinv : Safe s3)
    (hall : ∀ c ∈ s3.chans, ∃ site, c.loc = .parked site) (hctrl : s3.ctrl = .notified p e) :
    ∃ s4, run le s3 [.ctrl, .ctrl] = some s4 ∧
      s4.out = s3.out ++ [(s3.stats.clearAndPrintStats_end p e).2.1] ∧
      s4.ctrl = .input e ∧ s4.stats.limiting_ = false ∧
      s4.chans = s3.chans.map notifyStopped := by
  have hnr : noReader s3.chans = true := by
    rw [noReader_iff]
    intro c hc
    obtain ⟨site, hs⟩ := hall c hc
    rw [hs]; rfl
  have hcnt : List.countP (fun c => atBarrier c.loc) s3.chans = s3.chans.length := by
    rw [List.countP_eq_length]
    intro c hc
    obtain ⟨site, hs⟩ := hall c hc
    simp [hs, atBarrier]
  have h0 := hinv.count_le (by rw [hctrl]; rfl)
  rw [hcnt] at h0
  have htg : s3.stats.to_go_ ≤ 0 := by omega
  have hmw : s3.stats.mustWait = false := by simp [mustWait, htg]
  obtain ⟨stats, ctrl, chans, out, diag⟩ := s3
  simp only [] at hctrl hnr hmw
  subst hctrl
  refine ⟨{ stats := (stats.clearAndPrintStats_end p e).1, ctrl := .input e
            chans := chans.map notifyStopped
            out := out ++ [(stats.clearAndPrintStats_end p e).2.1], diag := diag },
    ?_, rfl, rfl, rfl, rfl⟩
  simp only [run, step, main, hnr, if_true, hmw, Bool.false_eq_true, if_false,
    Option.some_bind, clearAndPrintStats_end]

theorem run_append (le : Bool) : ∀ (a b : List Action) (s : Sys),
    run le s (a ++ b) = (run le s a).bind (fun s1 => run le s1 b) := by
  intro a
  induction a with
  | nil => intro b s; rfl
  | cons x xs ih =>
    intro b s
    simp only [List.cons_append, run]
    cases step le s x with
    | none => rfl
    | some s1 => simp only [Option.some_bind]; exact ih b s1

/-- A channel at the top of its loop whose poll times out (`n = 0`), or whose
drain delivers no frame (`0 < n`), reaches line 226 with the condition of the
idle check true; nothing but its own locals has changed. -/
theorem idle_pass_start (le : Bool) (s : Sys) (i : Nat) (c : Chan) (n : Int)
    (hc : s.chans[i]? = some c) (hloc : c.loc = .poll) (hn : 0 ≤ n) :
    ∃ c1, run le s (quietPoll i n) = some { s with chans := s.chans.set i c1 } ∧
      c1.loc = .afterDispatch ∧ (c1.n_evts = 0 ∨ c1.count_processed = 0) := by
  obtain ⟨loc, lt, ne, cp, batch, ret⟩ := c
  simp only [] at hloc
  subst hloc
  by_cases h0 : n = 0
  · subst h0
    refine ⟨⟨.afterDispatch, lt, 0, cp, batch, ret⟩, ?_, rfl, Or.inl rfl⟩
    simp only [quietPoll, if_true, run, step, hc, monitorInterface, lt_self_iff_false, if_false,
      Option.map_some', Option.some_bind, List.append_nil]
  · have hpos : 0 < n := by omega
    refine ⟨⟨.afterDispatch, lt, n, 0, [], 0⟩, ?_, rfl, Or.inr rfl⟩
    simp only [quietPoll, h0, if_false, run, step, hc, monitorInterface, hpos, if_true,
      Option.map_some', Option.some_bind, List.append_nil, getElem?_set_self _ _ _ _ hc,
      List.set_set, Bool.false_eq_true, List.length_nil, Nat.cast_zero]

/-! ## The barrier in runs without spurious wake-ups -/

theorem isArrival_spec (s : Sys) (i : Nat) (a : Action) (h : isArrival s i a = true) :
    a = .chan i .run ∧ s.stats.limiting_ = true ∧
      ∃ c tv site, s.chans[i]? = some c ∧ c.loc = .checkLocked tv site ∧
        (s.stats.checkCanRecord tv (i : Int)).2 = true := by
  cases a with
  | chan j act =>
    cases act <;> simp only [isArrival] at h <;> try contradiction
    simp only [Bool.and_eq_true, decide_eq_true_eq] at h
    obtain ⟨rfl, h2⟩ := h
    cases hc : s.chans[j]? with
    | none => simp [hc] at h2
    | some c =>
      simp only [hc] at h2
      cases hl : c.loc <;> simp only [hl] at h2 <;> try contradiction
      rename_i tv site
      refine ⟨rfl, ?_, c, tv, site, rfl, hl, h2⟩
      unfold checkCanRecord at h2
      split at h2
      · rename_i hcond
        simp only [Bool.and_eq_true] at hcond
        exact hcond.1
      · contradiction
  | line now => simp [isArrival] at h
  | eof => simp [isArrival] at h
  | ctrl => simp [isArrival] at h
  | ctrlSpurious => simp [isArrival] at h

theorem Settled_not_arrival (s : Sys) (i : Nat) (a : Action) (hs : Settled i s) :
    isArrival s i a = false := by
  cases h : isArrival s i a with
  | false => rfl
  | true =>
    obtain ⟨-, hlim, c, tv, site, hc, hl, -⟩ := isArrival_spec s i a h
    rcases hs with h1 | h1
    · rw [h1] at hlim; contradiction
    · have := h1 c hc
      rw [hl] at this
      contradiction

theorem main_limiting (s s1 : Sys) (a : Action) (h : main s a = some s1)
    (hl : a.isLine = false) :
    (s1.stats.limiting_ = false) ∨
      (s1.stats.limiting_ = s.stats.limiting_ ∧ s1.chans = s.chans) := by
  obtain ⟨stats, ctrl, chans, out, diag⟩ := s
  cases a <;> cases ctrl <;> simp only [main] at h <;> try contradiction
  all_goals (repeat' split at h) <;> try contradiction
  all_goals (simp only [Option.some.injEq] at h; subst h)
  all_goals (first | exact Or.inr ⟨rfl, rfl⟩ | exact Or.inl rfl)

/-- A step that neither starts a snapshot nor is a spurious return keeps a
settled channel settled. -/
theorem Settled_step (le : Bool) (i : Nat) (s s1 : Sys) (a : Action) (hs : Settled i s)
    (ha : a.isSpuriousWake = false) (hl : a.isLine = false) (h : step le s a = some s1) :
    Settled i s1 := by
  cases a with
  | chan j act =>
    simp only [step] at h
    cases hcj : s.chans[j]? with
    | none => simp [hcj] at h
    | some cj =>
      simp only [hcj, Option.map_eq_some'] at h
      obtain ⟨o, ho, rfl⟩ := h
      have hact : act ≠ .spurious := by
        intro hsp; subst hsp; simp [Action.isSpuriousWake] at ha
      obtain ⟨-, -, -, -, hlim, -, -, -, -, hcnt⟩ :=
        monitorInterface_frame le s.stats s.ctrl j cj act o ho hact
      rcases hs with h1 | h1
      · exact Or.inl (by simp only []; rw [hlim]; exact h1)
      · by_cases hji : j = i
        · subst hji
          refine Or.inr ?_
          intro c hc
          simp only [] at hc
          rw [getElem?_set_self _ _ _ _ hcj] at hc
          have hb := h1 cj hcj
          rcases hcnt with ⟨hp, -⟩ | ⟨hp, -⟩
          · rw [← Option.some.inj hc, hp]; exact hb
          · rw [hb] at hp; contradiction
        · refine Or.inr ?_
          intro c hc
          simp only [] at hc
          rw [List.getElem?_set_ne hji] at hc
          exact h1 c hc
  | line now => simp [Action.isLine] at hl
  | eof =>
    rcases main_limiting s s1 .eof (by simpa only [step] using h) rfl with h2 | ⟨h2, h3⟩
    · exact Or.inl h2
    · rcases hs with h1 | h1
      · exact Or.inl (h2.trans h1)
      · exact Or.inr (by rw [h3]; exact h1)
  | ctrl =>
    rcases main_limiting s s1 .ctrl (by simpa only [step] using h) rfl with h2 | ⟨h2, h3⟩
    · exact Or.inl h2
    · rcases hs with h1 | h1
      · exact Or.inl (h2.trans h1)
      · exact Or.inr (by rw [h3]; exact h1)
  | ctrlSpurious =>
    rcases main_limiting s s1 .ctrlSpurious (by simpa only [step] using h) rfl with h2 | ⟨h2, h3⟩
    · exact Or.inl h2
    · rcases hs with h1 | h1
      · exact Or.inl (h2.trans h1)
      · exact Or.inr (by rw [h3]; exact h1)

/-- The step in which a channel decrements `to_go_` leaves it settled. -/
theorem Settled_after_arrival (le : Bool) (i : Nat) (s s1 : Sys) (a : Action)
    (harr : isArrival s i a = true) (h : step le s a = some s1) : Settled i s1 := by
  obtain ⟨rfl, -, c, tv, site, hc, hl, hcc⟩ := isArrival_spec s i a harr
  obtain ⟨loc, lt, ne, cp, batch, ret⟩ := c
  simp only [] at hl
  subst hl
  simp only [step, hc, monitorInterface] at h
  split at h
  · simp only [Option.map_some', Option.some.injEq] at h
    subst h
    refine Or.inr ?_
    intro c1 hc1
    simp only [] at hc1
    rw [getElem?_set_self _ _ _ _ hc] at hc1
    rw [← Option.some.inj hc1]
    rfl
  · rename_i st heq
    rw [heq] at hcc
    contradiction

theorem arrivals_settled (le : Bool) (i : Nat) : ∀ (acts : List Action) (s : Sys),
    Settled i s → noSpuriousWake acts → (∀ a ∈ acts, a.isLine = false) →
    arrivals le i s acts = 0 := by
  intro acts
  induction acts with
  | nil => intro s _ _ _; rfl
  | cons a acts ih =>
    intro s hs hns hnl
    obtain ⟨ha, hns2⟩ := noSpuriousWake_cons a acts hns
    have hl := hnl a (List.mem_cons_self _ _)
    have hnl2 : ∀ b ∈ acts, b.isLine = false := fun b hb => hnl b (List.mem_cons_of_mem _ hb)
    simp only [arrivals, Settled_not_arrival s i a hs, Bool.false_eq_true, if_false,
      Nat.zero_add]
    cases hst : step le s a with
    | none => rfl
    | some s1 => exact ih s1 (Settled_step le i s s1 a hs ha hl hst) hns2 hnl2

/-- Without spurious wake-ups, between two starts of a snapshot a channel
decrements `to_go_` at most once, whatever the state the run begins in. -/
theorem one_arrival_per_episode (le : Bool) (i : Nat) : ∀ (acts : List Action) (s : Sys),
    noSpuriousWake acts → (∀ a ∈ acts, a.isLine = false) → arrivals le i s acts ≤ 1 := by
  intro acts
  induction acts with
  | nil => intro s _ _; simp [arrivals]
  | cons a acts ih =>
    intro s hns hnl
    obtain ⟨ha, hns2⟩ := noSpuriousWake_cons a acts hns
    have hnl2 : ∀ b ∈ acts, b.isLine = false := fun b hb => hnl b (List.mem_cons_of_mem _ hb)
    simp only [arrivals]
    cases hst : step le s a with
    | none =>
      simp only []
      split <;> simp
    | some s1 =>
      simp only []
      cases harr : isArrival s i a with
      | false =>
        simp only [Bool.false_eq_true, if_false, Nat.zero_add]
        exact ih s1 hns2 hnl2
      | true =>
        simp only [if_true]
        rw [arrivals_settled le i acts s1 (Settled_after_arrival le i s s1 a harr hst) hns2 hnl2]

/-- Without spurious wake-ups: `to_go_` stays between 0 and the number of
channels, during an episode it is the number of channels that have not yet
arrived, and when the controller leaves its wait loop to read and reset, every
channel is blocked in the wait of line 126. -/
theorem barrier_sound_without_spurious_wake (le : Bool) (N : Nat) (startTime : TimePoint)
    (acts : List Action) (s : Sys) (hns : noSpuriousWake acts)
    (hrun : run le (Sys.init N startTime) acts = some s) :
    0 ≤ s.stats.to_go_ ∧ s.stats.to_go_ ≤ (s.chans.length : Int) ∧
    (s.stats.limiting_ = true →
      s.stats.to_go_ + ((s.chans.countP (fun c => atBarrier c.loc) : Nat) : Int)
        = (s.chans.length : Int)) ∧
    (∀ p e, s.ctrl = .test p e → s.stats.mustWait = false →
      ∀ c ∈ s.chans, ∃ site, c.loc = .parked site) := by
  have hinv : Inv s := Inv_reachable le N startTime acts s hns hrun
  have hle : List.countP (fun c => atBarrier c.loc) s.chans ≤ s.chans.length :=
    List.countP_le_length _
  have hcases : inEpisode s.ctrl = true ∨ inEpisode s.ctrl = false := by
    cases inEpisode s.ctrl <;> simp
  refine ⟨?_, ?_, ?_, ?_⟩
  · rcases hcases with hE | hE
    · have := hinv.count hE; omega
    · rw [hinv.rest hE]
  · rcases hcases with hE | hE
    · have := hinv.count hE; omega
    · rw [hinv.rest hE]; omega
  · intro hlim
    rw [hinv.lim] at hlim
    exact hinv.count hlim
  · intro p e hctrl hmw c hc
    have hE : inEpisode s.ctrl = true := by rw [hctrl]; rfl
    have hU : holdsUnique s.ctrl = true := by rw [hctrl]; rfl
    simp only [mustWait, decide_eq_false_iff_not, not_lt] at hmw
    have h0 := hinv.count hE
    have hall : List.countP (fun c => atBarrier c.loc) s.chans = s.chans.length := by omega
    have hb := (List.countP_eq_length.mp hall) c hc
    have hsh := hinv.excl hU c hc
    cases hloc : c.loc <;> simp [hloc, atBarrier, holdsShared] at hb hsh
    exact ⟨_, rfl⟩

theorem bump_other (counts l : List Nat) (j : Nat) (n k : Nat)
    (h : bump counts (j : Int) n = some l) (hk : k ≠ j) : l.getD k 0 = counts.getD k 0 := by
  unfold bump at h
  split at h
  · split at h
    · rename_i v hv
      simp only [Option.some.injEq, Int.toNat_natCast] at h hv
      subst h
      have hj : j < counts.length := (List.getElem?_eq_some.mp hv).1
      rw [getD_set _ _ _ _ hj, if_neg hk]
    · contradiction
  · contradiction

theorem incrementStat_other (s s1 : InterfaceStats) (j : Nat) (g : Bool) (n k : Nat)
    (h : s.incrementStat (j : Int) g n = some s1) (hk : k ≠ j) :
    s1.good_byte_counts_.getD k 0 = s.good_byte_counts_.getD k 0 ∧
    s1.bad_byte_counts_.getD k 0 = s.bad_byte_counts_.getD k 0 := by
  unfold incrementStat at h
  split at h
  · simp only [Option.map_eq_some'] at h
    obtain ⟨l, hl, rfl⟩ := h
    exact ⟨bump_other _ _ _ _ _ hl hk, rfl⟩
  · simp only [Option.map_eq_some'] at h
    obtain ⟨l, hl, rfl⟩ := h
    exact ⟨rfl, bump_other _ _ _ _ _ hl hk⟩

/-- A step of channel `j` leaves the counters of every other channel alone. -/
theorem monitorInterface_counters (le : Bool) (stats : InterfaceStats) (ctrl : CLoc) (j : Nat)
    (c : Chan) (a : ChanAct) (o : ChanOut)
    (h : monitorInterface le stats ctrl j c a = some o) (k : Nat) (hk : k ≠ j) :
    o.stats.good_byte_counts_.getD k 0 = stats.good_byte_counts_.getD k 0 ∧
    o.stats.bad_byte_counts_.getD k 0 = stats.bad_byte_counts_.getD k 0 := by
  obtain ⟨loc, lt, ne, cp, batch, ret⟩ := c
  cases loc <;> cases a <;> simp only [monitorInterface] at h <;> try contradiction
  all_goals (repeat' split at h) <;> try contradiction
  all_goals (try (simp only [Option.some.injEq] at h; subst h))
  all_goals (try (exact ⟨rfl, rfl⟩))
  · rename_i st heq
    obtain ⟨rfl, -⟩ := checkCanRecord_true _ _ _ _ heq
    exact ⟨rfl, rfl⟩
  · rename_i st heq
    obtain ⟨rfl, -⟩ := checkCanRecord_false _ _ _ _ heq
    exact ⟨rfl, rfl⟩
  · rename_i st heq
    exact incrementStat_other _ _ _ _ _ _ heq hk

/-- A step appends at most one line to the output. -/
theorem step_out (le : Bool) (s s1 : Sys) (a : Action) (h : step le s a = some s1) :
    s1.out = s.out ∨ ∃ x, s1.out = s.out ++ [x] := by
  cases a with
  | chan j act =>
    simp only [step] at h
    cases hcj : s.chans[j]? with
    | none => simp [hcj] at h
    | some cj =>
      simp only [hcj, Option.map_eq_some'] at h
      obtain ⟨o, -, rfl⟩ := h
      exact Or.inl rfl
  | line now =>
    simp only [step] at h
    obtain ⟨stats, ctrl, chans, out, diag⟩ := s
    cases ctrl <;> simp only [main] at h <;> try contradiction
    split at h <;> try contradiction
    simp only [Option.some.injEq] at h
    subst h
    exact Or.inl rfl
  | eof =>
    simp only [step] at h
    obtain ⟨stats, ctrl, chans, out, diag⟩ := s
    cases ctrl <;> simp only [main] at h <;> try contradiction
    split at h <;> try contradiction
    simp only [Option.some.injEq] at h
    subst h
    exact Or.inl rfl
  | ctrlSpurious =>
    simp only [step] at h
    obtain ⟨stats, ctrl, chans, out, diag⟩ := s
    cases ctrl <;> simp only [main] at h <;> try contradiction
    simp only [Option.some.injEq] at h
    subst h
    exact Or.inl rfl
  | ctrl =>
    simp only [step] at h
    obtain ⟨stats, ctrl, chans, out, diag⟩ := s
    cases ctrl <;> simp only [main] at h <;> try contradiction
    all_goals (split at h) <;> try contradiction
    all_goals (simp only [Option.some.injEq] at h; subst h)
    all_goals (first | exact Or.inl rfl | exact Or.inr ⟨_, rfl⟩)

theorem run_out_length (le : Bool) : ∀ (acts : List Action) (s s1 : Sys),
    run le s acts = some s1 → s.out.length ≤ s1.out.length := by
  intro acts
  induction acts with
  | nil =>
    intro s s1 h
    simp only [run, Option.some.injEq] at h
    rw [h]
  | cons a acts ih =>
    intro s s1 h
    simp only [run] at h
    cases hs : step le s a with
    | none => simp [hs] at h
    | some s2 =>
      simp only [hs, Option.some_bind] at h
      have h2 := ih s2 s1 h
      rcases step_out le s s2 a hs with ho | ⟨x, ho⟩
      · rw [ho] at h2; exact h2
      · rw [ho, List.length_append] at h2
        omega

/-- A step from a state in which a channel is held at the barrier either leaves
it held, with its counters and the output unchanged, or prints the line of the
episode. -/
theorem Held_step (le : Bool) (i : Nat) (tv : TimePoint) (site : Site) (L : TimePoint)
    (g b : Nat) (s s1 : Sys) (a : Action) (hh : Held i tv site L g b s)
    (ha : a.isSpuriousWake = false) (h : step le s a = some s1) :
    (s1.out = s.out ∧ Held i tv site L g b s1) ∨ ∃ x, s1.out = s.out ++ [x] := by
  have hinv1 := Inv_step le s s1 a (hh.1) ha h
  obtain ⟨hinv, hlim, hL, hLtv, hg, hb, c, hc, hloc⟩ := hh
  have hE : inEpisode s.ctrl = true := by rw [← hinv.lim]; exact hlim
  cases a with
  | chan j act =>
    simp only [step] at h
    cases hcj : s.chans[j]? with
    | none => simp [hcj] at h
    | some cj =>
      simp only [hcj, Option.map_eq_some'] at h
      obtain ⟨o, ho, rfl⟩ := h
      have hact : act ≠ .spurious := by
        intro hsp; subst hsp; simp [Action.isSpuriousWake] at ha
      obtain ⟨-, -, -, -, hl, hlt, -⟩ := monitorInterface_frame le s.stats s.ctrl j cj act o ho hact
      refine Or.inl ⟨rfl, hinv1, by simp only []; rw [hl]; exact hlim,
        by simp only []; rw [hlt]; exact hL, hLtv, ?_⟩
      by_cases hji : j = i
      · subst hji
        have hcc : cj = c := Option.some.inj (hcj.symm.trans hc)
        subst hcc
        obtain ⟨loc, lt, ne, cp, batch, ret⟩ := cj
        simp only [] at hloc
        rcases hloc with hloc | hloc | hloc
        · subst hloc
          cases act <;> simp only [monitorInterface] at ho <;> try contradiction
          split at ho
          · rename_i st heq
            obtain ⟨rfl, -⟩ := checkCanRecord_true _ _ _ _ heq
            simp only [Option.some.injEq] at ho
            subst ho
            exact ⟨hg, hb, _, getElem?_set_self _ _ _ _ hc, Or.inr (Or.inl rfl)⟩
          · rename_i st heq
            obtain ⟨-, hf | hf⟩ := checkCanRecord_false _ _ _ _ heq
            · rw [hlim] at hf; contradiction
            · rw [hL] at hf
              exact absurd hf (not_lt.mpr hLtv)
        · subst hloc
          cases act <;> simp only [monitorInterface] at ho <;> try contradiction
          simp only [Option.some.injEq] at ho
          subst ho
          exact ⟨hg, hb, _, getElem?_set_self _ _ _ _ hc, Or.inr (Or.inr rfl)⟩
        · subst hloc
          cases act <;> simp only [monitorInterface] at ho <;> contradiction
      · obtain ⟨h1, h2⟩ := monitorInterface_counters le s.stats s.ctrl j cj act o ho i
          (fun e => hji e.symm)
        refine ⟨by simp only []; rw [h1]; exact hg, by simp only []; rw [h2]; exact hb, c, ?_,
          hloc⟩
        simp only []
        rw [List.getElem?_set_ne hji]
        exact hc
  | line now =>
    simp only [step] at h
    obtain ⟨stats, ctrl, chans, out, diag⟩ := s
    cases ctrl <;> simp only [main] at h <;> contradiction
  | eof =>
    simp only [step] at h
    obtain ⟨stats, ctrl, chans, out, diag⟩ := s
    cases ctrl <;> simp only [main] at h <;> contradiction
  | ctrlSpurious =>
    simp only [step] at h
    obtain ⟨stats, ctrl, chans, out, diag⟩ := s
    cases ctrl <;> simp only [main] at h <;> try contradiction
    simp only [Option.some.injEq] at h
    subst h
    exact Or.inl ⟨rfl, hinv1, hlim, hL, hLtv, hg, hb, c, hc, hloc⟩
  | ctrl =>
    simp only [step] at h
    obtain ⟨stats, ctrl, chans, out, diag⟩ := s
    cases ctrl <;> simp only [main] at h <;> try contradiction
    · split at h
      · simp only [Option.some.injEq] at h
        subst h
        exact Or.inl ⟨rfl, hinv1, hlim, hL, hLtv, hg, hb, c, hc, hloc⟩
      · simp only [Option.some.injEq] at h
        subst h
        exact Or.inr ⟨_, rfl⟩
    · split at h <;> try contradiction
      simp only [Option.some.injEq] at h
      subst h
      exact Or.inl ⟨rfl, hinv1, hlim, hL, hLtv, hg, hb, c, hc, hloc⟩

theorem Held_run (le : Bool) (i : Nat) (tv : TimePoint) (site : Site) (L : TimePoint)
    (g b : Nat) : ∀ (acts : List Action) (s s1 : Sys), Held i tv site L g b s →
    noSpuriousWake acts → run le s acts = some s1 → s1.out = s.out →
    Held i tv site L g b s1 := by
  intro acts
  induction acts with
  | nil =>
    intro s s1 hh _ h _
    simp only [run, Option.some.injEq] at h
    exact h ▸ hh
  | cons a acts ih =>
    intro s s1 hh hns h hout
    obtain ⟨ha, hns2⟩ := noSpuriousWake_cons a acts hns
    simp only [run] at h
    cases hs : step le s a with
    | none => simp [hs] at h
    | some s2 =>
      simp only [hs, Option.some_bind] at h
      rcases Held_step le i tv site L g b s s2 a hh ha hs with ⟨ho, hh2⟩ | ⟨x, ho⟩
      · exact ih s2 s1 hh2 hns2 h (by rw [ho]; exact hout)
      · have hlen := run_out_length le acts s2 s1 h
        rw [ho, hout, List.length_append] at hlen
        simp at hlen

/-- Without spurious wake-ups: once a channel makes, during an active episode,
the boundary check of a frame (or an idle check) with a time point at or after
the cutoff, then as long as the line of that episode has not been printed the
channel is still in `checkCanRecord`, at the test or at the wait, and its two
counters are what they were; so the bytes of such a frame are not in that
episode's snapshot. -/
theorem late_frame_held_back (le : Bool) (N : Nat) (startTime : TimePoint)
    (acts : List Action) (s : Sys) (i : Nat) (c : Chan) (tv : TimePoint) (site : Site)
    (acts2 : List Action) (s2 : Sys)
    (hns : noSpuriousWake acts) (hrun : run le (Sys.init N startTime) acts = some s)
    (hc : s.chans[i]? = some c) (hloc : c.loc = .checkLocked tv site)
    (hlim : s.stats.limiting_ = true) (hge : s.stats.limit_ ≤ tv)
    (hns2 : noSpuriousWake acts2) (hrun2 : run le s acts2 = some s2) (hout : s2.out = s.out) :
    s2.stats.limiting_ = true ∧ s2.stats.limit_ = s.stats.limit_ ∧
    s2.stats.good_byte_counts_.getD i 0 = s.stats.good_byte_counts_.getD i 0 ∧
    s2.stats.bad_byte_counts_.getD i 0 = s.stats.bad_byte_counts_.getD i 0 ∧
    ∃ c2, s2.chans[i]? = some c2 ∧
      (c2.loc = .checkLocked tv site ∨ c2.loc = .arrived site ∨ c2.loc = .parked site) := by
  have hinv : Inv s := Inv_reachable le N startTime acts s hns hrun
  have hh : Held i tv site s.stats.limit_ (s.stats.good_byte_counts_.getD i 0)
      (s.stats.bad_byte_counts_.getD i 0) s :=
    ⟨hinv, hlim, rfl, hge, rfl, rfl, c, hc, Or.inl hloc⟩
  obtain ⟨-, h1, h2, -, h4, h5, h6⟩ := Held_run le i tv site _ _ _ acts2 s s2 hh hns2 hrun2 hout
  exact ⟨h1, h2, h4, h5, h6⟩

/-! ## Claims on the store -/

theorem getElem?_of_getD (l : List Nat) (i v : Nat) (hi : i < l.length) (h : l.getD i 0 = v) :
    l[i]? = some v := by
  rw [List.getD_eq_getElem?_getD, List.getElem?_eq_getElem hi] at h
  rw [List.getElem?_eq_getElem hi]
  simpa using h

theorem WF_start (N : Nat) (s0 : InterfaceStats)
    (hstart : s0 = InterfaceStats.new N ∨
      ∃ (s : InterfaceStats) (p0 e0 : TimePoint), s.good_byte_counts_.length = N ∧ s.bad_byte_counts_.length = N ∧
        s0 = (s.clearAndPrintStats_end p0 e0).1) :
    WF N s0 ∧ (∀ j, s0.good_byte_counts_.getD j 0 = 0) ∧
      (∀ j, s0.bad_byte_counts_.getD j 0 = 0) := by
  rcases hstart with h | ⟨s, p0, e0, hg, hb, h⟩
  · subst h
    exact ⟨WF_new N, fun j => getD_replicate_zero N j, fun j => getD_replicate_zero N j⟩
  · subst h
    exact ⟨WF_end N s p0 e0 hg hb, fun j => getD_zeroAll _ j, fun j => getD_zeroAll _ j⟩

/-- The counters after a history that starts from zeroed counters. -/
theorem counters_after (N : Nat) (s0 : InterfaceStats) (ops : List StoreOp)
    (hstart : s0 = InterfaceStats.new N ∨
      ∃ (s : InterfaceStats) (p0 e0 : TimePoint), s.good_byte_counts_.length = N ∧ s.bad_byte_counts_.length = N ∧
        s0 = (s.clearAndPrintStats_end p0 e0).1)
    (hvalid : validOps N ops) :
    ∃ s1, applyOps s0 ops = some s1 ∧ WF N s1 ∧
      (∀ j, j < N → s1.good_byte_counts_.getD j 0 = recorded j true ops % U64) ∧
      (∀ j, j < N → s1.bad_byte_counts_.getD j 0 = recorded j false ops % U64) := by
  obtain ⟨w0, hg0, hb0⟩ := WF_start N s0 hstart
  obtain ⟨s1, e1, w1, hg1, hb1⟩ := applyOps_spec N ops s0 w0 hvalid
  refine ⟨s1, e1, w1, ?_, ?_⟩
  · intro j hj; rw [hg1 j hj, hg0 j, Nat.zero_add]
  · intro j hj; rw [hb1 j hj, hb0 j, Nat.zero_add]

/-- C1 (amended): for every channel count `N` and every history of in-range
store calls made since construction or since the previous snapshot, the later
snapshot reads, for every channel `i` and classification, the sum of the
matching `packetSize` arguments reduced modulo `2^64`, and prints exactly these
values; the value is the plain sum whenever that sum is below `2^64`. -/
theorem counter_conservation_mod (N : Nat) (s0 : InterfaceStats) (ops : List StoreOp)
    (p e : TimePoint)
    (hstart : s0 = InterfaceStats.new N ∨
      ∃ (s : InterfaceStats) (p0 e0 : TimePoint), s.good_byte_counts_.length = N ∧ s.bad_byte_counts_.length = N ∧
        s0 = (s.clearAndPrintStats_end p0 e0).1)
    (hvalid : validOps N ops) :
    ∃ s1, applyOps s0 ops = some s1 ∧
      (∀ i, i < N →
        s1.good_byte_counts_[i]? = some (recorded i true ops % U64) ∧
        s1.bad_byte_counts_[i]? = some (recorded i false ops % U64)) ∧
      (s1.clearAndPrintStats_end p e).2.1
        = toString (wrapInt64 (e - p)) ++ "ns" ++
            joinAll ((List.range N).map fun i =>
              pairText (recorded i true ops % U64) (recorded i false ops % U64)) ++ "\n" ∧
      (∀ i, i < N → recorded i true ops < U64 →
        s1.good_byte_counts_[i]? = some (recorded i true ops)) ∧
      (∀ i, i < N → recorded i false ops < U64 →
        s1.bad_byte_counts_[i]? = some (recorded i false ops)) := by
  obtain ⟨s1, e1, w1, hg, hb⟩ := counters_after N s0 ops hstart hvalid
  have hG : ∀ i, i < N → s1.good_byte_counts_[i]? = some (recorded i true ops % U64) :=
    fun i hi => getElem?_of_getD _ i _ (by rw [w1.good_len]; exact hi) (hg i hi)
  have hB : ∀ i, i < N → s1.bad_byte_counts_[i]? = some (recorded i false ops % U64) :=
    fun i hi => getElem?_of_getD _ i _ (by rw [w1.bad_len]; exact hi) (hb i hi)
  refine ⟨s1, e1, fun i hi => ⟨hG i hi, hB i hi⟩, ?_, ?_, ?_⟩
  · rw [end_line, w1.bad_len, List.range_eq_range']
    congr 3
    apply List.map_congr_left
    intro j hj
    have hjN : j < N := by simpa using hj
    rw [hg j hjN, hb j hjN]
  · intro i hi hlt
    rw [hG i hi, Nat.mod_eq_of_lt hlt]
  · intro i hi hlt
    rw [hB i hi, Nat.mod_eq_of_lt hlt]

/-- Witness of C1: two channels, three calls since construction. -/
theorem counter_conservation_mod_witness :
    (InterfaceStats.new 2 = InterfaceStats.new 2 ∨
      ∃ (s : InterfaceStats) (p0 e0 : TimePoint), s.good_byte_counts_.length = 2 ∧ s.bad_byte_counts_.length = 2 ∧
        InterfaceStats.new 2 = (s.clearAndPrintStats_end p0 e0).1) ∧
    validOps 2 [.record 0 true 100, .record 0 false 50, .record 1 true 10] ∧
    ∃ s1, applyOps (InterfaceStats.new 2)
        [.record 0 true 100, .record 0 false 50, .record 1 true 10] = some s1 ∧
      (∀ i, i < 2 →
        s1.good_byte_counts_[i]?
          = some (recorded i true [.record 0 true 100, .record 0 false 50, .record 1 true 10]
              % U64) ∧
        s1.bad_byte_counts_[i]?
          = some (recorded i false [.record 0 true 100, .record 0 false 50, .record 1 true 10]
              % U64)) ∧
      (s1.clearAndPrintStats_end 0 7).2.1
        = toString (wrapInt64 ((7 : Int) - 0)) ++ "ns" ++
            joinAll ((List.range 2).map fun i =>
              pairText
                (recorded i true [.record 0 true 100, .record 0 false 50, .record 1 true 10]
                  % U64)
                (recorded i false [.record 0 true 100, .record 0 false 50, .record 1 true 10]
                  % U64)) ++ "\n" ∧
      (∀ i, i < 2 →
        recorded i true [.record 0 true 100, .record 0 false 50, .record 1 true 10] < U64 →
        s1.good_byte_counts_[i]?
          = some (recorded i true [.record 0 true 100, .record 0 false 50, .record 1 true 10])) ∧
      (∀ i, i < 2 →
        recorded i false [.record 0 true 100, .record 0 false 50, .record 1 true 10] < U64 →
        s1.bad_byte_counts_[i]?
          = some (recorded i false
              [.record 0 true 100, .record 0 false 50, .record 1 true 10])) :=
  ⟨Or.inl rfl, by decide,
   counter_conservation_mod 2 (InterfaceStats.new 2)
     [.record 0 true 100, .record 0 false 50, .record 1 true 10] 0 7 (Or.inl rfl) (by decide)⟩

theorem recorded_replicate (i : Nat) (g : Bool) (n : Nat) :
    ∀ k, recorded i g (List.replicate k (.record (i : Int) g n)) = k * n := by
  intro k
  induction k with
  | zero => simp [recorded]
  | succ k ih =>
    rw [List.replicate_succ, recorded, ih]
    simp only [and_self, if_true]
    ring

/-- C1, counterexample to the claim as written: after `2^32 + 2` calls
`incrementStat(0, true, 2^32 - 1)` on a fresh one-channel store the good counter
of channel 0 holds `2^32 - 2`, not the sum `18446744078004518910` of the sizes. -/
theorem counter_sum_wraps :
    validOps 1 wrapHistory ∧
    (applyOps (InterfaceStats.new 1) wrapHistory).map (fun s => s.good_byte_counts_)
      = some [4294967294] ∧
    recorded 0 true wrapHistory = 18446744078004518910 := by
  have hv : validOps 1 wrapHistory := by
    intro op hm
    rw [wrapHistory, List.mem_replicate] at hm
    rw [hm.2]
    decide
  have hr : recorded 0 true wrapHistory = 18446744078004518910 := by
    have h := recorded_replicate 0 true 4294967295 4294967298
    exact h.trans (by decide)
  refine ⟨hv, ?_, hr⟩
  obtain ⟨s1, e1, w1, hg, -⟩ := counters_after 1 (InterfaceStats.new 1) wrapHistory (Or.inl rfl) hv
  rw [e1]
  have h0 := hg 0 (by decide)
  rw [hr] at h0
  have hlen := w1.good_len
  match hl : s1.good_byte_counts_, hlen, h0 with
  | [x], _, h0 =>
    simp only [Option.map_some', List.getD_cons_zero] at h0 ⊢
    rw [hl, h0]
    decide

theorem applyOps_quiet : ∀ (ops : List StoreOp) (s : InterfaceStats),
    (∀ op ∈ ops, op.isRecord = false) →
    ∃ s1, applyOps s ops = some s1 ∧ s1.good_byte_counts_ = s.good_byte_counts_ ∧
      s1.bad_byte_counts_ = s.bad_byte_counts_ := by
  intro ops
  induction ops with
  | nil => intro s _; exact ⟨s, rfl, rfl, rfl⟩
  | cons op ops ih =>
    intro s hq
    have hq2 : ∀ o ∈ ops, o.isRecord = false := fun o hm => hq o (List.mem_cons_of_mem _ hm)
    have hop := hq op (List.mem_cons_self _ _)
    cases op with
    | record i g n => simp [StoreOp.isRecord] at hop
    | check tv id =>
      obtain ⟨s2, e2, hg, hb⟩ := ih (s.checkCanRecord tv id).1 hq2
      refine ⟨s2, by simp [applyOps, applyOp, e2], ?_, ?_⟩
      · rw [hg]; unfold checkCanRecord; split <;> rfl
      · rw [hb]; unfold checkCanRecord; split <;> rfl
    | «begin» e =>
      obtain ⟨s2, e2, hg, hb⟩ := ih (s.clearAndPrintStats_begin e) hq2
      exact ⟨s2, by simp [applyOps, applyOp, e2], by rw [hg]; rfl, by rw [hb]; rfl⟩
    | signalEnd =>
      obtain ⟨s2, e2, hg, hb⟩ := ih s.signalEnd hq2
      exact ⟨s2, by simp [applyOps, applyOp, e2], by rw [hg]; rfl, by rw [hb]; rfl⟩

theorem joinAll_map_const (t : String) : ∀ (l : List Nat),
    joinAll (l.map fun _ => t) = joinAll (List.replicate l.length t) := by
  intro l
  induction l with
  | nil => rfl
  | cons x xs ih => simp [joinAll, List.replicate_succ, ih]

/-- C4: for every store state, right after lines 68-90 of `clearAndPrintStats`
every good and every bad counter is 0 and `limiting_` is false; and a second
snapshot reached through any calls other than `incrementStat` prints `0 0` for
every channel. -/
theorem reset_idempotence (s : InterfaceStats) (p e p2 e2 : TimePoint) (ops : List StoreOp)
    (hquiet : ∀ op ∈ ops, op.isRecord = false) :
    (s.clearAndPrintStats_end p e).1.good_byte_counts_
        = List.replicate s.good_byte_counts_.length 0 ∧
    (s.clearAndPrintStats_end p e).1.bad_byte_counts_
        = List.replicate s.bad_byte_counts_.length 0 ∧
    (s.clearAndPrintStats_end p e).1.limiting_ = false ∧
    ∃ s1, applyOps (s.clearAndPrintStats_end p e).1 ops = some s1 ∧
      s1.good_byte_counts_ = List.replicate s.good_byte_counts_.length 0 ∧
      s1.bad_byte_counts_ = List.replicate s.bad_byte_counts_.length 0 ∧
      (s1.clearAndPrintStats_end p2 e2).2.1
        = toString (wrapInt64 (e2 - p2)) ++ "ns" ++
            joinAll (List.replicate s.bad_byte_counts_.length ", 0 0") ++ "\n" := by
  have hg0 : (s.clearAndPrintStats_end p e).1.good_byte_counts_
      = List.replicate s.good_byte_counts_.length 0 := zeroAll_eq _
  have hb0 : (s.clearAndPrintStats_end p e).1.bad_byte_counts_
      = List.replicate s.bad_byte_counts_.length 0 := zeroAll_eq _
  refine ⟨hg0, hb0, rfl, ?_⟩
  obtain ⟨s1, e1, hg, hb⟩ := applyOps_quiet ops (s.clearAndPrintStats_end p e).1 hquiet
  refine ⟨s1, e1, hg.trans hg0, hb.trans hb0, ?_⟩
  rw [end_line, hg, hb, hg0, hb0]
  simp only [List.length_replicate, getD_replicate_zero]
  have h := joinAll_map_const (pairText 0 0) (List.range' 0 s.bad_byte_counts_.length)
  rw [List.length_range'] at h
  rw [h]
  rfl

/-- Witness of C4: a two-channel store holding counts, then a quiet history. -/
theorem reset_idempotence_witness :
    (∀ op ∈ [StoreOp.begin 9, StoreOp.check 10 0, StoreOp.check 11 1], op.isRecord = false) ∧
    (scenarioStore.clearAndPrintStats_end 0 7).1.good_byte_counts_
        = List.replicate 2 0 ∧
    (scenarioStore.clearAndPrintStats_end 0 7).1.bad_byte_counts_
        = List.replicate 2 0 ∧
    (scenarioStore.clearAndPrintStats_end 0 7).1.limiting_ = false ∧
    ∃ s1, applyOps
        (scenarioStore.clearAndPrintStats_end 0 7).1
        [StoreOp.begin 9, StoreOp.check 10 0, StoreOp.check 11 1] = some s1 ∧
      s1.good_byte_counts_ = List.replicate 2 0 ∧
      s1.bad_byte_counts_ = List.replicate 2 0 ∧
      (s1.clearAndPrintStats_end 7 9).2.1
        = toString (wrapInt64 ((9 : Int) - 7)) ++ "ns" ++
            joinAll (List.replicate 2 ", 0 0") ++ "\n" :=
  ⟨by decide,
   reset_idempotence
     scenarioStore
     0 7 7 9 [StoreOp.begin 9, StoreOp.check 10 0, StoreOp.check 11 1] (by decide)⟩

theorem wrapInt64_of_range (x : Int)
    (h : -9223372036854775808 ≤ x ∧ x < 9223372036854775808) : wrapInt64 x = x := by
  unfold wrapInt64
  omega

/-- C7, counterexample to the claim as written: with the previous instant at the
least `int64` nanosecond count and `endTime = 100`, the difference
`9223372036854775908` does not fit the `int64` duration of line 56, and the line
of a fresh one-channel store starts `-9223372036854775708ns`. -/
theorem snapshot_duration_wraps :
    ((InterfaceStats.new 1).clearAndPrintStats_end (-9223372036854775808) 100).2.1
      = "-9223372036854775708ns, 0 0\n" ∧
    toString ((100 : Int) - (-9223372036854775808)) = "9223372036854775908" ∧
    ((InterfaceStats.new 1).clearAndPrintStats_end (-9223372036854775808) 100).2.1
      ≠ toString ((100 : Int) - (-9223372036854775808)) ++ "ns" ++
          joinAll (List.zipWith pairText (InterfaceStats.new 1).good_byte_counts_
            (InterfaceStats.new 1).bad_byte_counts_) ++ "\n" := by
  decide

/-- C7 (amended): for a store with `N` channels and a previous instant `p` such
that `endTime - p` is within the `int64` range, lines 68-90 of
`clearAndPrintStats` write the decimal value of `endTime - p`, then `ns`, then
for each channel in index order a comma, a blank, the good counter, a blank
and the bad counter as they were before the reset, then a newline, and return
`endTime`; for any instants the number written is `endTime - p` reduced to the
`int64` range.  In the two-channel scenario the first line ends
`, 100 50, 10 0` and, after one more record of 5 good bytes on channel 0, the
next one ends `, 5 0, 0 0`. -/
theorem snapshot_output_line (N : Nat) (s : InterfaceStats) (p e e2 : TimePoint)
    (hg : s.good_byte_counts_.length = N) (hb : s.bad_byte_counts_.length = N)
    (hr : -9223372036854775808 ≤ e - p ∧ e - p < 9223372036854775808)
    (hr2 : -9223372036854775808 ≤ e2 - e ∧ e2 - e < 9223372036854775808) :
    (s.clearAndPrintStats_end p e).2.1
      = toString (e - p) ++ "ns" ++
          joinAll (List.zipWith pairText s.good_byte_counts_ s.bad_byte_counts_) ++ "\n" ∧
    (∀ p1 e1 : TimePoint, (s.clearAndPrintStats_end p1 e1).2.1
      = toString (wrapInt64 (e1 - p1)) ++ "ns" ++
          joinAll (List.zipWith pairText s.good_byte_counts_ s.bad_byte_counts_) ++ "\n") ∧
    (List.zipWith pairText s.good_byte_counts_ s.bad_byte_counts_).length = N ∧
    (s.clearAndPrintStats_end p e).2.2 = e ∧
    ∃ s1 s2, applyOps (InterfaceStats.new 2) scenarioFirst = some s1 ∧
      (s1.clearAndPrintStats_end p e).2.1 = toString (e - p) ++ "ns, 100 50, 10 0\n" ∧
      applyOps (s1.clearAndPrintStats_end p e).1 [.record 0 true 5] = some s2 ∧
      (s2.clearAndPrintStats_end e e2).2.1 = toString (e2 - e) ++ "ns, 5 0, 0 0\n" := by
  have hgen : ∀ p1 e1 : TimePoint, (s.clearAndPrintStats_end p1 e1).2.1
      = toString (wrapInt64 (e1 - p1)) ++ "ns" ++
          joinAll (List.zipWith pairText s.good_byte_counts_ s.bad_byte_counts_) ++ "\n" := by
    intro p1 e1
    rw [end_line, map_range_eq_zipWith _ _ (hg.trans hb.symm)]
  refine ⟨?_, hgen, by simp [hg, hb], rfl, ?_⟩
  · rw [hgen, wrapInt64_of_range _ hr]
  · refine ⟨scenarioStore,
      { InterfaceStats.new 2 with good_byte_counts_ := [5, 0] }, by decide, ?_, rfl, ?_⟩
    · rw [end_line, wrapInt64_of_range _ hr, String.append_assoc, String.append_assoc]
      congr 1
    · rw [end_line, wrapInt64_of_range _ hr2, String.append_assoc, String.append_assoc]
      congr 1

/-- Witness of C7: the store of the scenario after its first three records. -/
theorem snapshot_output_line_witness :
    ([100, 10] : List Nat).length = 2 ∧ ([50, 0] : List Nat).length = 2 ∧
    ((-9223372036854775808 : Int) ≤ 7 - 3 ∧ (7 : Int) - 3 < 9223372036854775808) ∧
    ((-9223372036854775808 : Int) ≤ 12 - 7 ∧ (12 : Int) - 7 < 9223372036854775808) ∧
    (scenarioStore.clearAndPrintStats_end 3 7).2.1
      = toString ((7 : Int) - 3) ++ "ns" ++
          joinAll (List.zipWith pairText [100, 10] [50, 0]) ++ "\n" ∧
    (∀ p1 e1 : TimePoint, (scenarioStore.clearAndPrintStats_end p1 e1).2.1
      = toString (wrapInt64 (e1 - p1)) ++ "ns" ++
          joinAll (List.zipWith pairText [100, 10] [50, 0]) ++ "\n") ∧
    (List.zipWith pairText [100, 10] [50, 0]).length = 2 ∧
    (scenarioStore.clearAndPrintStats_end 3 7).2.2 = 7 ∧
    ∃ s1 s2, applyOps (InterfaceStats.new 2) scenarioFirst = some s1 ∧
      (s1.clearAndPrintStats_end 3 7).2.1 = toString ((7 : Int) - 3) ++ "ns, 100 50, 10 0\n" ∧
      applyOps (s1.clearAndPrintStats_end 3 7).1 [.record 0 true 5] = some s2 ∧
      (s2.clearAndPrintStats_end 7 12).2.1 = toString ((12 : Int) - 7) ++ "ns, 5 0, 0 0\n" :=
  ⟨rfl, rfl, by decide, by decide,
   snapshot_output_line 2 scenarioStore 3 7 12 rfl rfl (by decide) (by decide)⟩

/-! ## Claims on the classifier -/

theorem nativeU32_lt (le : Bool) (b0 b1 b2 b3 : Nat) : nativeU32 le b0 b1 b2 b3 < U32 := by
  unfold nativeU32 U32
  split <;> omega

theorem nativeU32_msb_little (b0 b1 b2 b3 : Nat) :
    nativeU32 true b0 b1 b2 b3 / 16777216 % 256 = b3 % 256 := by
  unfold nativeU32
  simp only [if_true]
  omega

theorem nativeU32_msb_big (b0 b1 b2 b3 : Nat) :
    nativeU32 false b0 b1 b2 b3 / 16777216 % 256 = b0 % 256 := by
  unfold nativeU32
  simp only [Bool.false_eq_true, if_false]
  omega

/-- C8: on an Ethernet channel, for a frame with at least 30 captured bytes, the
switch reads the four bytes at offsets 26 to 29 as a `uint32_t` in host byte
order and sets `good` exactly when the most significant byte of that value is
even (the byte at offset 29 on a little-endian host, the one at offset 26 on a
big-endian one); `incrementStat` then adds the declared length to the good
counter of the channel when `good` is set and to its bad counter otherwise. -/
theorem ethernet_classification (littleEndian : Bool) (params : PcapLoopParams) (f : Frame)
    (hlink : params.linkType = DLT_EN10MB) (hcap : 30 ≤ f.caplen) :
    ∃ b26 b27 b28 b29 : Nat,
      f.data[26]? = some b26 ∧ f.data[27]? = some b27 ∧
      f.data[28]? = some b28 ∧ f.data[29]? = some b29 ∧
      nativeU32 littleEndian b26 b27 b28 b29 < U32 ∧
      (littleEndian = true →
        nativeU32 littleEndian b26 b27 b28 b29 / 16777216 % 256 = b29 % 256) ∧
      (littleEndian = false →
        nativeU32 littleEndian b26 b27 b28 b29 / 16777216 % 256 = b26 % 256) ∧
      classify littleEndian params f.data
        = some ⟨decide (nativeU32 littleEndian b26 b27 b28 b29 / 16777216 % 256 % 2 = 0),
                "", ""⟩ ∧
      ∀ (stats : InterfaceStats) (i : Nat), params.index = (i : Int) →
        i < stats.good_byte_counts_.length → i < stats.bad_byte_counts_.length →
        f.len < U32 →
        (nativeU32 littleEndian b26 b27 b28 b29 / 16777216 % 256 % 2 = 0 →
          perPacketHandle littleEndian params f stats
            = some { stats with good_byte_counts_ :=
                (stats.good_byte_counts_.set i
                  ((stats.good_byte_counts_.getD i 0 + f.len) % U64)) }) ∧
        (nativeU32 littleEndian b26 b27 b28 b29 / 16777216 % 256 % 2 = 1 →
          perPacketHandle littleEndian params f stats
            = some { stats with bad_byte_counts_ :=
                (stats.bad_byte_counts_.set i
                  ((stats.bad_byte_counts_.getD i 0 + f.len) % U64)) }) := by
  have hlen : 30 ≤ f.data.length := hcap
  have h26 : f.data[26]? = some (f.data[26]) := List.getElem?_eq_getElem (by omega)
  have h27 : f.data[27]? = some (f.data[27]) := List.getElem?_eq_getElem (by omega)
  have h28 : f.data[28]? = some (f.data[28]) := List.getElem?_eq_getElem (by omega)
  have h29 : f.data[29]? = some (f.data[29]) := List.getElem?_eq_getElem (by omega)
  have hne : ¬ params.linkType = DLT_NULL := by rw [hlink]; decide
  have hcl : classify littleEndian params f.data
      = some ⟨decide (nativeU32 littleEndian (f.data[26]) (f.data[27]) (f.data[28]) (f.data[29])
          / 16777216 % 256 % 2 = 0), "", ""⟩ := by
    simp only [classify, hne, hlink, if_true, if_false, loadIp, h26, h27, h28, h29,
      Option.map_some', goodIp]
    congr 2
  refine ⟨_, _, _, _, h26, h27, h28, h29, nativeU32_lt _ _ _ _ _, ?_, ?_, hcl, ?_⟩
  · intro h; subst h; exact nativeU32_msb_little _ _ _ _
  · intro h; subst h; exact nativeU32_msb_big _ _ _ _
  · intro stats i hidx hig hib hl
    have hmod : f.len % U32 = f.len := Nat.mod_eq_of_lt hl
    have h0 : (0 : Int) ≤ params.index := by rw [hidx]; exact Int.natCast_nonneg i
    have hto : params.index.toNat = i := by rw [hidx]; exact Int.toNat_natCast i
    constructor
    · intro hev
      have := incrementStat_good stats params.index f.len h0 (by rw [hto]; exact hig)
      rw [hto, hmod] at this
      simp only [perPacketHandle, hcl, hev, decide_True]
      exact this
    · intro hodd
      have hd : decide (nativeU32 littleEndian (f.data[26]) (f.data[27]) (f.data[28])
          (f.data[29]) / 16777216 % 256 % 2 = 0) = false := by
        rw [hodd]; rfl
      have := incrementStat_bad stats params.index f.len h0 (by rw [hto]; exact hib)
      rw [hto, hmod] at this
      simp only [perPacketHandle, hcl, hd]
      exact this

/-- Witness of C8: a 30-byte frame with an odd byte at offset 29. -/
theorem ethernet_classification_witness :
    (⟨0, DLT_EN10MB⟩ : PcapLoopParams).linkType = DLT_EN10MB ∧
    30 ≤ (etherFrame ⟨0, 0⟩ 60 7).caplen ∧
    ∃ b26 b27 b28 b29 : Nat,
      (etherFrame ⟨0, 0⟩ 60 7).data[26]? = some b26 ∧
      (etherFrame ⟨0, 0⟩ 60 7).data[27]? = some b27 ∧
      (etherFrame ⟨0, 0⟩ 60 7).data[28]? = some b28 ∧
      (etherFrame ⟨0, 0⟩ 60 7).data[29]? = some b29 ∧
      nativeU32 true b26 b27 b28 b29 < U32 ∧
      (true = true → nativeU32 true b26 b27 b28 b29 / 16777216 % 256 = b29 % 256) ∧
      (true = false → nativeU32 true b26 b27 b28 b29 / 16777216 % 256 = b26 % 256) ∧
      classify true ⟨0, DLT_EN10MB⟩ (etherFrame ⟨0, 0⟩ 60 7).data
        = some ⟨decide (nativeU32 true b26 b27 b28 b29 / 16777216 % 256 % 2 = 0), "", ""⟩ ∧
      ∀ (stats : InterfaceStats) (i : Nat),
        (⟨0, DLT_EN10MB⟩ : PcapLoopParams).index = (i : Int) →
        i < stats.good_byte_counts_.length → i < stats.bad_byte_counts_.length →
        (etherFrame ⟨0, 0⟩ 60 7).len < U32 →
        (nativeU32 true b26 b27 b28 b29 / 16777216 % 256 % 2 = 0 →
          perPacketHandle true ⟨0, DLT_EN10MB⟩ (etherFrame ⟨0, 0⟩ 60 7) stats
            = some { stats with good_byte_counts_ :=
                (stats.good_byte_counts_.set i
                  ((stats.good_byte_counts_.getD i 0 + (etherFrame ⟨0, 0⟩ 60 7).len) % U64)) }) ∧
        (nativeU32 true b26 b27 b28 b29 / 16777216 % 256 % 2 = 1 →
          perPacketHandle true ⟨0, DLT_EN10MB⟩ (etherFrame ⟨0, 0⟩ 60 7) stats
            = some { stats with bad_byte_counts_ :=
                (stats.bad_byte_counts_.set i
                  ((stats.bad_byte_counts_.getD i 0 + (etherFrame ⟨0, 0⟩ 60 7).len) % U64)) }) :=
  ⟨rfl, by decide,
   ethernet_classification true ⟨0, DLT_EN10MB⟩ (etherFrame ⟨0, 0⟩ 60 7) rfl (by decide)⟩

/-- C9, the code at a truncated frame: on an Ethernet channel, for a frame with
20 captured bytes, the switch still dereferences offsets 26 to 29, all of them
at or beyond `caplen`; the read is outside the captured bytes, so the callback
has undefined behaviour instead of leaving the counters alone. -/
theorem truncated_frame_reads_past_caplen :
    truncatedFrame.caplen = 20 ∧
    truncatedFrame.data[26]? = none ∧ truncatedFrame.data[29]? = none ∧
    loadIp true truncatedFrame.data = none ∧ loadIp false truncatedFrame.data = none ∧
    classify true ⟨0, DLT_EN10MB⟩ truncatedFrame.data = none ∧
    perPacketHandle true ⟨0, DLT_EN10MB⟩ truncatedFrame (InterfaceStats.new 1) = none := by
  decide

/-- C6, counterexample to the claim as written: a frame of declared length 40
on a channel of link type `DLT_NULL`, `DLT_RAW` or an unlisted one (113) adds 40
to the bad byte counter of its channel. -/
theorem unknown_link_frame_changes_bad_counter :
    perPacketHandle true ⟨0, DLT_NULL⟩ frame40 (InterfaceStats.new 1)
      = some { InterfaceStats.new 1 with bad_byte_counts_ := [40] } ∧
    perPacketHandle true ⟨0, DLT_RAW⟩ frame40 (InterfaceStats.new 1)
      = some { InterfaceStats.new 1 with bad_byte_counts_ := [40] } ∧
    perPacketHandle true ⟨0, 113⟩ frame40 (InterfaceStats.new 1)
      = some { InterfaceStats.new 1 with bad_byte_counts_ := [40] } ∧
    (InterfaceStats.new 1).bad_byte_counts_ = [0] := by
  decide

theorem classify_not_ethernet (littleEndian : Bool) (params : PcapLoopParams) (data : List Nat)
    (hlink : params.linkType ≠ DLT_EN10MB) :
    ∃ v, classify littleEndian params data = some v ∧ v.good = false := by
  simp only [classify, if_neg hlink]
  split_ifs <;> exact ⟨_, rfl, rfl⟩

/-- C6 (amended): for a frame of any declared length handled on a channel whose
link type is not Ethernet, the thread first calls `checkCanRecord` with the
time point of the frame's timestamp; when that call has returned, the switch
leaves `good` false, and `incrementStat` adds the declared length to the bad
byte counter of that channel, leaving every good counter and the bad counters
of the other channels as they were. -/
theorem unknown_link_counts_as_bad (littleEndian : Bool) (stats : InterfaceStats) (ctrl : CLoc)
    (i : Nat) (c : Chan) (f : Frame) (rest : List Frame)
    (hlink : c.linkType ≠ DLT_EN10MB)
    (hib : i < stats.bad_byte_counts_.length) (hlen : f.len < U32) :
    monitorInterface littleEndian stats ctrl i { c with loc := .dispatch, batch := f :: rest } .run
      = some ⟨{ c with loc := .check (tvConvert f.ts) (.frame f), batch := rest },
              stats, ctrl, []⟩ ∧
    afterCheck (.frame f) = .classify f ∧
    (∃ v, classify littleEndian ⟨i, c.linkType⟩ f.data = some v ∧ v.good = false ∧
      monitorInterface littleEndian stats ctrl i { c with loc := .classify f } .run
        = some ⟨{ c with loc := .incr false f.len }, stats, ctrl, [v.cout ++ v.cerr]⟩) ∧
    monitorInterface littleEndian stats ctrl i { c with loc := .incrLocked false f.len } .run
      = some ⟨{ c with loc := .dispatch },
              { stats with bad_byte_counts_ :=
                  (stats.bad_byte_counts_.set i
                    ((stats.bad_byte_counts_.getD i 0 + f.len) % U64)) },
              ctrl, []⟩ ∧
    perPacketHandle littleEndian ⟨i, c.linkType⟩ f stats
      = some { stats with bad_byte_counts_ :=
          (stats.bad_byte_counts_.set i
            ((stats.bad_byte_counts_.getD i 0 + f.len) % U64)) } := by
  have hmod : f.len % U32 = f.len := Nat.mod_eq_of_lt hlen
  have hto : ((i : Nat) : Int).toNat = i := Int.toNat_natCast i
  have hinc := incrementStat_bad stats (i : Int) f.len (Int.natCast_nonneg i)
    (by rw [hto]; exact hib)
  rw [hto, hmod] at hinc
  obtain ⟨v, hv, hg⟩ := classify_not_ethernet littleEndian ⟨i, c.linkType⟩ f.data hlink
  refine ⟨rfl, rfl, ⟨v, hv, hg, ?_⟩, ?_, ?_⟩
  · simp only [monitorInterface, hv, hg]
  · simp only [monitorInterface, hinc]
  · simp only [perPacketHandle, hv, hg, hinc]

/-- Witness of C6: a frame of length 40 on a `DLT_NULL` channel. -/
theorem unknown_link_counts_as_bad_witness :
    nullChan.linkType ≠ DLT_EN10MB ∧
    0 < (InterfaceStats.new 1).bad_byte_counts_.length ∧
    frame40.len < U32 ∧
    monitorInterface true (InterfaceStats.new 1) (.input 0) 0
        { nullChan with loc := .dispatch, batch := frame40 :: [] } .run
      = some ⟨{ nullChan with loc := .check (tvConvert frame40.ts) (.frame frame40), batch := [] },
              InterfaceStats.new 1, .input 0, []⟩ ∧
    afterCheck (.frame frame40) = .classify frame40 ∧
    (∃ v, classify true ⟨((0 : Nat) : Int), nullChan.linkType⟩ frame40.data = some v ∧
      v.good = false ∧
      monitorInterface true (InterfaceStats.new 1) (.input 0) 0
          { nullChan with loc := .classify frame40 } .run
        = some ⟨{ nullChan with loc := .incr false frame40.len }, InterfaceStats.new 1,
                .input 0, [v.cout ++ v.cerr]⟩) ∧
    monitorInterface true (InterfaceStats.new 1) (.input 0) 0
        { nullChan with loc := .incrLocked false frame40.len } .run
      = some ⟨{ nullChan with loc := .dispatch },
              { InterfaceStats.new 1 with bad_byte_counts_ :=
                  ((InterfaceStats.new 1).bad_byte_counts_.set 0
                    (((InterfaceStats.new 1).bad_byte_counts_.getD 0 0 + frame40.len) % U64)) },
              .input 0, []⟩ ∧
    perPacketHandle true ⟨((0 : Nat) : Int), nullChan.linkType⟩ frame40 (InterfaceStats.new 1)
      = some { InterfaceStats.new 1 with bad_byte_counts_ :=
          ((InterfaceStats.new 1).bad_byte_counts_.set 0
            (((InterfaceStats.new 1).bad_byte_counts_.getD 0 0 + frame40.len) % U64)) } :=
  ⟨by decide, by decide, by decide,
   unknown_link_counts_as_bad true (InterfaceStats.new 1) (.input 0) 0 nullChan frame40 []
     (by decide) (by decide) (by decide)⟩

/-! ## Claims on the barrier -/

/-- C2, the code at a schedule with a spurious wake-up: one channel, snapshot
with cutoff 100 in progress; the channel presents a frame stamped 1000 and
blocks at the barrier; its wait returns spuriously before the controller has
read, the frame's 60 bytes are recorded, and the line printed for this very
episode reports them. -/
theorem late_frame_leaks_into_snapshot :
    boundaryTime lateFrame = 1000 ∧
    (run true (Sys.init 1 0) parkSchedule).map
        (fun s => (s.stats.limiting_, s.stats.limit_, s.chans.map (fun c => c.loc), s.out))
      = some (true, 100, [.parked (.frame lateFrame)], []) ∧
    (run true (Sys.init 1 0) leakSchedule).map (fun s => (s.stats.limiting_, s.out))
      = some (false, ["100ns, 0 60\n"]) := by
  decide

/-- C3, the code at a schedule with spurious wake-ups: two channels and a single
snapshot; channel 0 decrements `to_go_` three times in the one episode and
channel 1 not at all, `to_go_` falls to -1, and the controller then reads and
resets although channel 1 has not arrived. -/
theorem arrival_counter_decremented_thrice :
    (tripleArrival.filter Action.isLine).length = 1 ∧
    arrivals true 0 (Sys.init 2 0) tripleArrival = 3 ∧
    arrivals true 1 (Sys.init 2 0) tripleArrival = 0 ∧
    (run true (Sys.init 2 0) tripleArrival).map
        (fun s => (s.stats.limiting_, s.stats.to_go_, s.chans.map (fun c => c.loc), s.out))
      = some (true, -1, [.parked (.frame lateFrame), .poll], []) ∧
    (run true (Sys.init 2 0) (tripleArrival ++ [.ctrl, .ctrl])).map
        (fun s => (s.stats.limiting_, s.chans.map (fun c => c.loc), s.out))
      = some (false, [.woken (.frame lateFrame), .poll], ["100ns, 0 120, 0 0\n"]) := by
  decide

/-- C10: take any reachable state in which channel `i` is at the top of its
loop.  When its poll times out (`n = 0`) or its drain hands
over no frame (`0 < n`), the channel reaches line 226, where it cannot go on to
`finished()` directly: its only move is the call of `checkCanRecord` with
`now()`, and that call returns to the test of `finished()`.  If an episode with
cutoff `e` is active, the controller is out of the lock and `now()` is at or
after the cutoff, the call decrements `to_go_` by one, notifies the controller
and blocks the channel; and if all the other channels are blocked at the
barrier, the controller then takes the lock, prints the line and ends the
episode. -/
theorem idle_check_in (le : Bool) (N : Nat) (startTime : TimePoint) (acts : List Action)
    (s : Sys) (i : Nat) (c : Chan) (now : TimePoint) (n : Int)
    (hrun : run le (Sys.init N startTime) acts = some s)
    (hc : s.chans[i]? = some c) (hloc : c.loc = .poll) (hn : 0 ≤ n) :
    ∃ s1 c1 s2,
      run le s (quietPoll i n) = some s1 ∧
      s1.chans[i]? = some c1 ∧ c1.loc = .afterDispatch ∧
      (c1.n_evts = 0 ∨ c1.count_processed = 0) ∧
      step le s1 (.chan i .run) = none ∧
      step le s1 (.chan i (.idle now)) = some s2 ∧
      s2.chans[i]? = some { c1 with loc := .check now .idle } ∧
      afterCheck .idle = .fin ∧
      ∀ p e, (s.ctrl = .waiting p e ∨ s.ctrl = .notified p e) → e ≤ now →
        ∃ s3, run le s2 [.chan i .run, .chan i .run, .chan i .run] = some s3 ∧
          s3.stats.to_go_ = s.stats.to_go_ - 1 ∧
          s3.chans[i]? = some { c1 with loc := .parked .idle } ∧
          s3.ctrl = .notified p e ∧ s3.out = s.out ∧
          ((∀ j cj, j ≠ i → s.chans[j]? = some cj → ∃ site, cj.loc = .parked site) →
            ∃ s4, run le s3 [.ctrl, .ctrl] = some s4 ∧
              s4.out = s.out ++ [(s.stats.clearAndPrintStats_end p e).2.1] ∧
              s4.ctrl = .input e ∧ s4.stats.limiting_ = false) := by
  have hinv : Safe s := Safe_reachable le N startTime acts s hrun
  obtain ⟨c1, hr1, hl1, hcond⟩ := idle_pass_start le s i c n hc hloc hn
  have hinv1 := Safe_run le _ _ _ hinv hr1
  have hc1 : ({ s with chans := s.chans.set i c1 } : Sys).chans[i]? = some c1 :=
    getElem?_set_self _ _ _ _ hc
  obtain ⟨hnone, h2⟩ := idle_check_only le _ i c1 now hc1 hl1 hcond
  refine ⟨_, c1, _, hr1, hc1, hl1, hcond, hnone, h2, getElem?_set_self _ _ _ _ hc1, rfl, ?_⟩
  intro p e hctrl hnow
  have h3 := idle_arrival le _ i c1 p e now hinv1 hc1 hctrl hnow
  have hc3 : (({ s with chans := s.chans.set i c1 } : Sys).chans.set i
      { c1 with loc := .parked .idle })[i]? = some { c1 with loc := .parked .idle } :=
    getElem?_set_self _ _ _ _ hc1
  refine ⟨_, h3, rfl, hc3, rfl, rfl, ?_⟩
  intro hothers
  have hinv3 := Safe_run le ([Action.chan i (.idle now)] ++ [.chan i .run, .chan i .run, .chan i .run])
    _ _ hinv1 (by rw [run_append]; simp only [run, h2, Option.some_bind]; exact h3)
  have hall : ∀ x ∈ ({ s with chans := s.chans.set i c1 } : Sys).chans.set i
      { c1 with loc := .parked .idle }, ∃ site, x.loc = .parked site := by
    intro x hx
    obtain ⟨j, hj⟩ := List.mem_iff_getElem?.mp hx
    by_cases hji : j = i
    · subst hji
      rw [hc3] at hj
      exact ⟨.idle, by rw [← Option.some.inj hj]⟩
    · rw [List.getElem?_set_ne (fun h => hji h.symm),
        List.getElem?_set_ne (fun h => hji h.symm)] at hj
      exact hothers j x hji hj
  obtain ⟨s4, h4, ho4, hc4, hl4, -⟩ := finish_when_all_parked le _ p e hinv3 hall rfl
  exact ⟨s4, h4, ho4, hc4, hl4⟩

/-- Witness of C10: one channel, idle while the controller waits. -/
theorem idle_check_in_witness :
    run true (Sys.init 1 0) idleSchedule = some idleState ∧
    idleState.chans[0]? = some nullChan ∧ nullChan.loc = .poll ∧ (0 : Int) ≤ 0 ∧
    ∃ s1 c1 s2,
      run true idleState (quietPoll 0 0) = some s1 ∧
      s1.chans[0]? = some c1 ∧ c1.loc = .afterDispatch ∧
      (c1.n_evts = 0 ∨ c1.count_processed = 0) ∧
      step true s1 (.chan 0 .run) = none ∧
      step true s1 (.chan 0 (.idle 150)) = some s2 ∧
      s2.chans[0]? = some { c1 with loc := .check 150 .idle } ∧
      afterCheck .idle = .fin ∧
      ∀ p e, (idleState.ctrl = .waiting p e ∨ idleState.ctrl = .notified p e) → e ≤ 150 →
        ∃ s3, run true s2 [.chan 0 .run, .chan 0 .run, .chan 0 .run] = some s3 ∧
          s3.stats.to_go_ = idleState.stats.to_go_ - 1 ∧
          s3.chans[0]? = some { c1 with loc := .parked .idle } ∧
          s3.ctrl = .notified p e ∧ s3.out = idleState.out ∧
          ((∀ j cj, j ≠ 0 → idleState.chans[j]? = some cj → ∃ site, cj.loc = .parked site) →
            ∃ s4, run true s3 [.ctrl, .ctrl] = some s4 ∧
              s4.out = idleState.out ++ [(idleState.stats.clearAndPrintStats_end p e).2.1] ∧
              s4.ctrl = .input e ∧ s4.stats.limiting_ = false) :=
  ⟨by decide, by decide, by decide, by decide,
   idle_check_in true 1 0 idleSchedule idleState 0 nullChan 150 0
     (by decide) (by decide) (by decide) (by decide)⟩

end Bwmon
